import Mathlib

/-!
Verification of the gitlab-feed activity aggregator.

This file contains a shallow embedding, in Lean 4, of the parts of the
gitlab-feed Go program that the verified properties speak about:

* label priorities and the monotonic label merge
  (`getPRLabelPriority`, `getIssueLabelPriority`, `shouldUpdateLabel`,
  `mergeLabelWithPriority` from `platform_gitlab.go`);
* cache identity keys (`normalizeProjectPathWithNamespace`,
  `buildGitLabMergeRequestKey`, `buildGitLabIssueKey`, `buildGitLabDedupKey`);
* the retry/backoff error classification of `retryWithBackoff` and
  `gitLabRateLimitResetWait`;
* the issue-reference extraction `gitLabIssueReferenceKeysFromText`
  together with executable matchers for its four regular expressions;
* label derivation `deriveGitLabMergeRequestLabel` /
  `deriveGitLabIssueLabel`, instrumented with the list of
  signal-gathering API calls they perform;
* cross-reference linking: `nestGitLabIssues`,
  `filterStandaloneGitLabIssues`, `linkGitLabCrossReferencesOnline`, and
  the fetch pipeline `fetchGitLabProjectActivities` with the cache-write
  outcomes supplied by an oracle;
* on the GitHub side `nestGitHubIssues`, `filterStandaloneGitHubIssues`
  and `areGitHubCrossReferenced` from `platform_github.go`.

Conventions: Go strings are Lean `String`; Go `time.Time` values are
`Option Int` (nanoseconds, `none` standing for the zero time carried by a
nil pointer); Go `time.Duration` is `Int` nanoseconds; pointers are
`Option`; external collaborator calls (GitLab/GitHub HTTP API, BBolt
writes) are oracle inputs, matching the spec's treatment of them as
opaque collaborators.  Case folding (`strings.EqualFold`,
`strings.ToLower`) is modelled with `goToLower`.
-/

/-- Whitespace class of Go `strings.TrimSpace` restricted to ASCII. -/
def goIsSpace (c : Char) : Bool :=
  c == ' ' || c == '\t' || c == '\n' || c == '\r' || c == '\x0b' || c == '\x0c'

/-- Character-level helper: remove leading and trailing characters
satisfying `p` from a char list. -/
def trimListBy (p : Char → Bool) (l : List Char) : List Char :=
  ((l.dropWhile p).reverse.dropWhile p).reverse

/-- Embedding of `strings.TrimSpace` (kernel-computable, unlike
`String.trim`). -/
def goTrim (s : String) : String :=
  ⟨trimListBy goIsSpace s.data⟩

/-- ASCII lower-casing of one character. -/
def goLowerChar (c : Char) : Char :=
  if 'A' ≤ c && c ≤ 'Z' then Char.ofNat (c.toNat + 32) else c

/-- Embedding of `strings.ToLower` restricted to ASCII folding
(kernel-computable, unlike `String.toLower`). -/
def goToLower (s : String) : String :=
  ⟨s.data.map goLowerChar⟩

/-- Embedding of `normalizeProjectPathWithNamespace` from
`platform_gitlab.go`: trim whitespace, then trim slashes from both ends.
Note that it does not lower-case. -/
def normalizeProjectPathWithNamespace (repo : String) : String :=
  let trimmed := goTrim repo
  ⟨trimListBy (fun c => c == '/') trimmed.data⟩

/-- Embedding of `strings.EqualFold` (restricted to the ASCII folding
used by every input in this development). -/
def goEqualFold (s t : String) : Bool :=
  goToLower s == goToLower t

/-- Substring test on char lists, embedding `strings.Contains`. -/
def listContainsSub (hay needle : List Char) : Bool :=
  match hay with
  | [] => needle.isEmpty
  | _ :: t => needle.isPrefixOf hay || listContainsSub t needle

/-- Embedding of `strings.Contains`. -/
def goContains (hay needle : String) : Bool :=
  listContainsSub hay.data needle.data

/-- Embedding of `getPRLabelPriority` from `platform_gitlab.go`: the Go
map literal becomes a decision chain; an unknown label gets 999. -/
def getPRLabelPriority (label : String) : Nat :=
  if label = "Authored" then 1
  else if label = "Assigned" then 2
  else if label = "Reviewed" then 3
  else if label = "Review Requested" then 4
  else if label = "Commented" then 5
  else if label = "Mentioned" then 6
  else 999

/-- Embedding of `getIssueLabelPriority` from `platform_gitlab.go`. -/
def getIssueLabelPriority (label : String) : Nat :=
  if label = "Authored" then 1
  else if label = "Assigned" then 2
  else if label = "Commented" then 3
  else if label = "Mentioned" then 4
  else 999

/-- Priority table selected by domain, as `shouldUpdateLabel` selects it. -/
def labelPriority (isPR : Bool) (label : String) : Nat :=
  if isPR then getPRLabelPriority label else getIssueLabelPriority label

/-- Embedding of `shouldUpdateLabel` from `platform_gitlab.go`: an empty
current label always accepts; otherwise the candidate wins only on a
strictly smaller priority number. -/
def shouldUpdateLabel (currentLabel newLabel : String) (isPR : Bool) : Bool :=
  if currentLabel = "" then true
  else
    let currentPriority := if isPR then getPRLabelPriority currentLabel else getIssueLabelPriority currentLabel
    let newPriority := if isPR then getPRLabelPriority newLabel else getIssueLabelPriority newLabel
    decide (newPriority < currentPriority)

/-- Embedding of `mergeLabelWithPriority` from `platform_gitlab.go`. -/
def mergeLabelWithPriority (currentLabel candidateLabel : String) (isPR : Bool) : String :=
  if shouldUpdateLabel currentLabel candidateLabel isPR then candidateLabel
  else currentLabel

/-- Embedding of `needsLowerPriorityPRChecks` from `platform_gitlab.go`. -/
def needsLowerPriorityPRChecks (currentLabel : String) : Bool :=
  shouldUpdateLabel currentLabel "Commented" true || shouldUpdateLabel currentLabel "Mentioned" true

/-- The labels that the derivation code can ever feed to
`mergeLabelWithPriority` as candidates, per domain: the six request
signals and the four issue signals visible in
`deriveGitLabMergeRequestLabel` / `deriveGitLabIssueLabel`. -/
def gitLabSignalLabels (isPR : Bool) : List String :=
  if isPR then ["Authored", "Assigned", "Reviewed", "Review Requested", "Commented", "Mentioned"]
  else ["Authored", "Assigned", "Commented", "Mentioned"]

/-- Embedding of `buildGitLabMergeRequestKey` from the database layer:
`normalize(path) ++ "#!" ++ iid`. -/
def buildGitLabMergeRequestKey (pathWithNamespace : String) (iid : Int) : String :=
  normalizeProjectPathWithNamespace pathWithNamespace ++ "#!" ++ toString iid

/-- Embedding of `buildGitLabIssueKey` from the database layer:
`normalize(path) ++ "##" ++ iid`. -/
def buildGitLabIssueKey (pathWithNamespace : String) (iid : Int) : String :=
  normalizeProjectPathWithNamespace pathWithNamespace ++ "##" ++ toString iid

/-- Embedding of `buildGitLabNoteKey` from the database layer. -/
def buildGitLabNoteKey (pathWithNamespace itemType : String) (iid noteID : Int) : String :=
  normalizeProjectPathWithNamespace pathWithNamespace ++ "|" ++ goToLower (goTrim itemType) ++ "|"
    ++ toString iid ++ "|" ++ toString noteID

/-- Embedding of `buildGitLabDedupKey` from `platform_gitlab.go`
(note: this one, unlike the cache keys, lower-cases the path). -/
def buildGitLabDedupKey (projectPath itemType : String) (iid : Int) : String :=
  goToLower projectPath ++ "|" ++ itemType ++ "|" ++ toString iid

/-- Embedding of `splitGitLabPathWithNamespace` from `platform_gitlab.go`:
split the normalized path at the last slash. -/
def splitGitLabPathWithNamespace (path : String) : Option (String × String) :=
  let normalized := normalizeProjectPathWithNamespace path
  let l := normalized.data
  match (List.range l.length).reverse.find? (fun i => l.getD i ' ' == '/') with
  | none => none
  | some idx =>
    if idx = 0 || idx ≥ l.length - 1 then none
    else some (⟨l.take idx⟩, ⟨l.drop (idx + 1)⟩)

/-- Embedding of `gitLabProjectPath` from `platform_gitlab.go`. -/
def gitLabProjectPath (owner repo : String) : String :=
  let owner' := normalizeProjectPathWithNamespace owner
  let repo' := ⟨trimListBy (fun c => c == '/') (goTrim repo).data⟩
  if repo' ≠ "" then
    if owner' = "" then repo' else owner' ++ "/" ++ repo'
  else owner'


/-- One second in nanoseconds (`time.Second`). -/
def goSecondNs : Int := 1000000000

/-- The `maxBackoff` constant of `retryWithBackoff` (30 s). -/
def gitLabMaxBackoff : Int := 30 * goSecondNs

/-- The `initialBackoff` constant of `retryWithBackoff` (1 s). -/
def gitLabInitialBackoff : Int := goSecondNs

/-- Digit run to a natural number; `none` when the list is empty or
contains a non-digit, matching the all-or-nothing behaviour of
`strconv.Atoi` / `strconv.ParseInt`. -/
def parseNatList (l : List Char) : Option Nat :=
  match l with
  | [] => none
  | _ =>
    l.foldl (fun acc c =>
      match acc with
      | none => none
      | some n => if '0' ≤ c && c ≤ '9' then some (n * 10 + (c.toNat - '0'.toNat)) else none)
      (some 0)

/-- Embedding of `strconv.Atoi` / `strconv.ParseInt(.,10,64)`: optional
sign followed by at least one digit, nothing else.  (Overflow is not
modelled; every input exercised here is small.) -/
def goAtoi (s : String) : Option Int :=
  match s.data with
  | '+' :: t => (parseNatList t).map (fun n => (n : Int))
  | '-' :: t => (parseNatList t).map (fun n => -(n : Int))
  | l => (parseNatList l).map (fun n => (n : Int))

/-- Embedding of `gitLabRateLimitResetWait` from `platform_gitlab.go`:
parse the header as a Unix timestamp (seconds); non-positive or
unparseable yields nothing; otherwise wait until the reset instant, with
a 1 s floor applied only when that instant has already passed. -/
def gitLabRateLimitResetWait (rawHeader : String) (now : Int) : Option Int :=
  match goAtoi (goTrim rawHeader) with
  | none => none
  | some resetAtUnix =>
    if resetAtUnix ≤ 0 then none
    else
      let waitTime := resetAtUnix * goSecondNs - now
      if waitTime ≤ 0 then some goSecondNs else some waitTime

/-- Errors as `retryWithBackoff` distinguishes them: a
`gitlab.ErrorResponse` with a live HTTP response (status code plus the
two rate-limit headers it reads), or any other error, of which only the
message text matters. -/
inductive GitLabAPIError where
  | httpError (statusCode : Int) (retryAfterHeader rateLimitResetHeader : String)
  | plainError (message : String)
deriving DecidableEq, Repr

/-- Wait-time cascade of the 429 branch of `retryWithBackoff` (lines
140-154 of `platform_gitlab.go`): `Retry-After` seconds when positive,
else the rate-limit-reset wait, else the backoff capped at 30 s. -/
def gitLab429Wait (retryAfterHeader resetHeader : String) (backoff now : Int) : Int :=
  match goAtoi (goTrim retryAfterHeader) with
  | some s =>
    if 0 < s then s * goSecondNs
    else
      match gitLabRateLimitResetWait resetHeader now with
      | some w => w
      | none => min backoff gitLabMaxBackoff
  | none =>
    match gitLabRateLimitResetWait resetHeader now with
    | some w => w
    | none => min backoff gitLabMaxBackoff

/-- Error classification of one iteration of `retryWithBackoff`:
`none` means not retryable (the error is returned to the caller at
once); `some w` means retryable with a wait of `w` nanoseconds.
Division and the 30 s cap are exact for every reachable backoff value,
so the float detour of the Go code is modelled with integer
arithmetic. -/
def retryDecision (e : GitLabAPIError) (backoff now : Int) : Option Int :=
  match e with
  | .httpError statusCode retryAfterHeader resetHeader =>
    if statusCode = 429 then some (gitLab429Wait retryAfterHeader resetHeader backoff now)
    else if 500 ≤ statusCode ∧ statusCode ≤ 599 then some (min backoff gitLabMaxBackoff)
    else none
  | .plainError message =>
    if goContains message "rate limit" || goContains message "API rate limit exceeded"
        || goContains message "403" then
      some (min backoff gitLabMaxBackoff)
    else
      some (min (backoff / 2) (5 * goSecondNs))

/-- One attempt of the retried operation, as the loop model consumes it:
the error the operation returned (`none` on success) and the wall-clock
instant at which the error was classified. -/
structure RetryAttemptCtx where
  error : Option GitLabAPIError
  now : Int
deriving DecidableEq, Repr

/-- Outcome of the `retryWithBackoff` loop on a finite trace of attempt
outcomes. -/
inductive RetryResult where
  | success (attemptsMade : Nat) (totalWait : Int)
  | terminalError (e : GitLabAPIError) (attemptsMade : Nat) (totalWait : Int)
  | outOfTrace
deriving DecidableEq, Repr

/-- Loop of `retryWithBackoff`: run attempts until one succeeds or a
non-retryable error appears; every retryable wait multiplies the backoff
by 1.5 (exact in integers for all reachable values). -/
def retryWithBackoffRun (backoff : Int) (attemptsMade : Nat) (totalWait : Int) :
    List RetryAttemptCtx → RetryResult
  | [] => .outOfTrace
  | a :: rest =>
    match a.error with
    | none => .success (attemptsMade + 1) totalWait
    | some e =>
      match retryDecision e backoff a.now with
      | none => .terminalError e (attemptsMade + 1) totalWait
      | some w => retryWithBackoffRun (backoff * 3 / 2) (attemptsMade + 1) (totalWait + w) rest

/-- Embedding of `retryWithBackoff`, starting from the 1 s initial
backoff with nothing waited yet. -/
def retryWithBackoffModel (trace : List RetryAttemptCtx) : RetryResult :=
  retryWithBackoffRun gitLabInitialBackoff 0 0 trace


/-- GitLab user as the matchers read it: numeric id and username.  The
Go code has several structurally identical user types
(`gitlab.BasicUser`, `gitlab.NoteAuthor`, `gitlab.IssueAuthor`,
`gitlab.IssueAssignee`); they share this one carrier, while the four
source matcher functions are kept as separate definitions. -/
structure GLUser where
  id : Int
  username : String
deriving DecidableEq, Repr

/-- GitLab note (comment) with the fields the program reads. -/
structure GLNote where
  id : Int
  body : String
  author : GLUser
deriving DecidableEq, Repr

/-- Embedding of `matchesGitLabNoteAuthor` from `platform_gitlab.go`. -/
def matchesGitLabNoteAuthor (author : GLUser) (username : String) (userID : Int) : Bool :=
  if 0 < userID && author.id == userID then true
  else goEqualFold (goTrim author.username) (goTrim username)

/-- Embedding of `matchesGitLabBasicUser` from `platform_gitlab.go`. -/
def matchesGitLabBasicUser (user : Option GLUser) (username : String) (userID : Int) : Bool :=
  match user with
  | none => false
  | some u =>
    if 0 < userID && u.id == userID then true
    else goEqualFold (goTrim u.username) (goTrim username)

/-- Embedding of `matchesGitLabIssueAuthor` from `platform_gitlab.go`. -/
def matchesGitLabIssueAuthor (author : Option GLUser) (username : String) (userID : Int) : Bool :=
  match author with
  | none => false
  | some a =>
    if 0 < userID && a.id == userID then true
    else goEqualFold (goTrim a.username) (goTrim username)

/-- Embedding of `matchesGitLabIssueAssignee` from `platform_gitlab.go`. -/
def matchesGitLabIssueAssignee (assignee : Option GLUser) (username : String) (userID : Int) : Bool :=
  match assignee with
  | none => false
  | some a =>
    if 0 < userID && a.id == userID then true
    else goEqualFold (goTrim a.username) (goTrim username)

/-- Embedding of `gitLabIssueAssigneeListContains` from `platform_gitlab.go`. -/
def gitLabIssueAssigneeListContains (assignees : List (Option GLUser)) (username : String) (userID : Int) : Bool :=
  assignees.any (fun a => matchesGitLabIssueAssignee a username userID)

/-- Embedding of `gitLabBasicUserListContains` from `platform_gitlab.go`. -/
def gitLabBasicUserListContains (users : List (Option GLUser)) (username : String) (userID : Int) : Bool :=
  users.any (fun u => matchesGitLabBasicUser u username userID)

/-- Approval rule: only the `ApprovedBy` user list is read. -/
structure GLApprovalRule where
  approvedBy : List (Option GLUser)
deriving DecidableEq, Repr

/-- Embedding of `gitLabApprovalStateReviewedByCurrentUser` from
`platform_gitlab.go`. -/
def gitLabApprovalStateReviewedByCurrentUser
    (state : Option (List (Option GLApprovalRule))) (username : String) (userID : Int) : Bool :=
  match state with
  | none => false
  | some rules =>
    rules.any (fun r =>
      match r with
      | none => false
      | some rule => gitLabBasicUserListContains rule.approvedBy username userID)

/-- Embedding of `containsGitLabUserMention` from `platform_gitlab.go`. -/
def containsGitLabUserMention (text username : String) : Bool :=
  if text = "" || username = "" then false
  else
    let needle := "@" ++ goToLower (goTrim username)
    if needle = "@" then false
    else goContains (goToLower text) needle

/-- Loop of `gitLabNotesInvolvement`: scan notes, setting the commented
and mentioned flags, stopping early once both hold. -/
def gitLabNotesInvolvementAux (username : String) (userID : Int) :
    List (Option GLNote) → Bool → Bool → Bool × Bool
  | [], commented, mentioned => (commented, mentioned)
  | note :: rest, commented, mentioned =>
    match note with
    | none => gitLabNotesInvolvementAux username userID rest commented mentioned
    | some n =>
      let commented' := if matchesGitLabNoteAuthor n.author username userID then true else commented
      let mentioned' := if !mentioned && containsGitLabUserMention n.body username then true else mentioned
      if commented' && mentioned' then (commented', mentioned')
      else gitLabNotesInvolvementAux username userID rest commented' mentioned'

/-- Embedding of `gitLabNotesInvolvement` from `platform_gitlab.go`:
returns (commented, mentioned); the mentioned flag is seeded from the
item description. -/
def gitLabNotesInvolvement (notes : List (Option GLNote)) (description username : String) (userID : Int) : Bool × Bool :=
  gitLabNotesInvolvementAux username userID notes false (containsGitLabUserMention description username)

instance {ε α : Type} [DecidableEq ε] [DecidableEq α] : DecidableEq (Except ε α) := fun x y =>
  match x, y with
  | .ok a, .ok b =>
    if h : a = b then .isTrue (congrArg Except.ok h)
    else .isFalse (fun hc => h (Except.ok.inj hc))
  | .error a, .error b =>
    if h : a = b then .isTrue (congrArg Except.error h)
    else .isFalse (fun hc => h (Except.error.inj hc))
  | .ok _, .error _ => .isFalse (fun hc => Except.noConfusion hc)
  | .error _, .ok _ => .isFalse (fun hc => Except.noConfusion hc)

/-- GitLab merge request as `deriveGitLabMergeRequestLabel` and
`toMergeRequestModelFromGitLab` read it.  The two collaborator calls the
derivation makes (`GetApprovalState`, `ListMergeRequestNotes` paginated
to completion) are oracle outcomes carried on the item. -/
structure GLBasicMergeRequest where
  iid : Int
  title : String
  description : String
  state : String
  updatedAt : Option Int
  webURL : String
  mergedAt : Option Int
  author : Option GLUser
  assignee : Option GLUser
  assignees : List (Option GLUser)
  reviewers : List (Option GLUser)
  approvalState : Except String (Option (List (Option GLApprovalRule)))
  notesResult : Except String (List (Option GLNote))
deriving DecidableEq, Repr

/-- GitLab issue as `deriveGitLabIssueLabel` and
`toIssueModelFromGitLab` read it. -/
structure GLIssue where
  iid : Int
  title : String
  description : String
  state : String
  updatedAt : Option Int
  webURL : String
  author : Option GLUser
  assignee : Option GLUser
  assignees : List (Option GLUser)
  notesResult : Except String (List (Option GLNote))
deriving DecidableEq, Repr

/-- Signal-gathering API calls a derivation can perform, in the order
the code performs them. -/
inductive GLDeriveCall where
  | approvalStateQuery
  | notesFetch
deriving DecidableEq, Repr

/-- Embedding of `deriveGitLabMergeRequestLabel` from
`platform_gitlab.go`, instrumented with the list of signal-gathering
calls performed.  Author/assignee matches need no call; the function
returns early on Authored/Assigned; the approval query and the notes
fetch are recorded when reached. -/
def deriveGitLabMergeRequestLabel (item : Option GLBasicMergeRequest)
    (currentUsername : String) (currentUserID : Int) :
    Except String (String × List (Option GLNote)) × List GLDeriveCall :=
  match item with
  | none => (.ok ("Involved", []), [])
  | some it =>
    let l0 := ""
    let l1 := if matchesGitLabBasicUser it.author currentUsername currentUserID then
        mergeLabelWithPriority l0 "Authored" true else l0
    let l2 := if gitLabBasicUserListContains it.assignees currentUsername currentUserID
        || matchesGitLabBasicUser it.assignee currentUsername currentUserID then
        mergeLabelWithPriority l1 "Assigned" true else l1
    if l2 = "Authored" || l2 = "Assigned" then (.ok (l2, []), [])
    else
      match it.approvalState with
      | .error e => (.error e, [.approvalStateQuery])
      | .ok approval =>
        let l3 := if gitLabApprovalStateReviewedByCurrentUser approval currentUsername currentUserID then
            mergeLabelWithPriority l2 "Reviewed" true else l2
        let l4 := if gitLabBasicUserListContains it.reviewers currentUsername currentUserID then
            mergeLabelWithPriority l3 "Review Requested" true else l3
        if !needsLowerPriorityPRChecks l4 then
          if l4 = "" then (.ok ("Involved", []), [.approvalStateQuery])
          else (.ok (l4, []), [.approvalStateQuery])
        else
          match it.notesResult with
          | .error e => (.error e, [.approvalStateQuery, .notesFetch])
          | .ok notes =>
            let cm := gitLabNotesInvolvement notes it.description currentUsername currentUserID
            let l5 := if cm.1 then mergeLabelWithPriority l4 "Commented" true else l4
            let l6 := if cm.2 then mergeLabelWithPriority l5 "Mentioned" true else l5
            if l6 = "" then (.ok ("Involved", notes), [.approvalStateQuery, .notesFetch])
            else (.ok (l6, notes), [.approvalStateQuery, .notesFetch])

/-- Embedding of `deriveGitLabIssueLabel` from `platform_gitlab.go`,
instrumented like the merge-request variant. -/
def deriveGitLabIssueLabel (item : Option GLIssue)
    (currentUsername : String) (currentUserID : Int) :
    Except String (String × List (Option GLNote)) × List GLDeriveCall :=
  match item with
  | none => (.ok ("Involved", []), [])
  | some it =>
    let l0 := ""
    let l1 := if matchesGitLabIssueAuthor it.author currentUsername currentUserID then
        mergeLabelWithPriority l0 "Authored" false else l0
    let l2 := if gitLabIssueAssigneeListContains it.assignees currentUsername currentUserID
        || matchesGitLabIssueAssignee it.assignee currentUsername currentUserID then
        mergeLabelWithPriority l1 "Assigned" false else l1
    if l2 = "Authored" || l2 = "Assigned" then (.ok (l2, []), [])
    else
      match it.notesResult with
      | .error e => (.error e, [.notesFetch])
      | .ok notes =>
        let cm := gitLabNotesInvolvement notes it.description currentUsername currentUserID
        let l3 := if cm.1 then mergeLabelWithPriority l2 "Commented" false else l2
        let l4 := if cm.2 then mergeLabelWithPriority l3 "Mentioned" false else l3
        if l4 = "" then (.ok ("Involved", notes), [.notesFetch])
        else (.ok (l4, notes), [.notesFetch])

/-- Unified merge-request model (`MergeRequestModel` in the Go code). -/
structure MergeRequestModel where
  number : Int
  title : String
  body : String
  state : String
  updatedAt : Option Int
  webURL : String
  userLogin : String
  merged : Bool
deriving DecidableEq, Repr

/-- Unified issue model (`IssueModel` in the Go code). -/
structure IssueModel where
  number : Int
  title : String
  body : String
  state : String
  updatedAt : Option Int
  webURL : String
  userLogin : String
deriving DecidableEq, Repr

/-- Issue activity (`IssueActivity` in the Go code). -/
structure IssueActivity where
  label : String
  owner : String
  repo : String
  issue : IssueModel
  updatedAt : Option Int
  hasUpdates : Bool
deriving DecidableEq, Repr

/-- Request activity (`PRActivity` in the Go code), with nested issue
activities. -/
structure PRActivity where
  label : String
  owner : String
  repo : String
  mr : MergeRequestModel
  updatedAt : Option Int
  hasUpdates : Bool
  issues : List IssueActivity
deriving DecidableEq, Repr

/-- Embedding of `toMergeRequestModelFromGitLab` from
`platform_gitlab.go`; a nil item yields the zero-valued model. -/
def toMergeRequestModelFromGitLab (item : Option GLBasicMergeRequest) : MergeRequestModel :=
  match item with
  | none => ⟨0, "", "", "", none, "", "", false⟩
  | some it =>
    let state := goToLower it.state
    let merged := state == "merged" || it.mergedAt.isSome
    let normalizedState := if merged || state == "closed" then "closed" else "open"
    let userLogin := match it.author with | none => "" | some a => a.username
    ⟨it.iid, it.title, it.description, normalizedState, it.updatedAt, it.webURL, userLogin, merged⟩

/-- Embedding of `toIssueModelFromGitLab` from `platform_gitlab.go`. -/
def toIssueModelFromGitLab (item : Option GLIssue) : IssueModel :=
  match item with
  | none => ⟨0, "", "", "", none, "", ""⟩
  | some it =>
    let state := goToLower it.state
    let normalizedState := if state == "closed" then "closed" else "open"
    let userLogin := match it.author with | none => "" | some a => a.username
    ⟨it.iid, it.title, it.description, normalizedState, it.updatedAt, it.webURL, userLogin⟩

/-- Association list standing in for a Go map: insertion shadows the
previous binding, lookup takes the most recent one. -/
def alInsert {α : Type} (m : List (String × α)) (k : String) (v : α) : List (String × α) :=
  (k, v) :: m

/-- Lookup in the association-list map. -/
def alLookup {α : Type} (m : List (String × α)) (k : String) : Option α :=
  match m.find? (fun p => p.1 == k) with
  | some p => some p.2
  | none => none

/-- String set as a duplicate-free list standing in for a Go
`map[string]struct{}`. -/
def strSetInsert (s : List String) (k : String) : List String :=
  if s.contains k then s else s ++ [k]

/-- Comparison `x.After(y)` on modelled times, the zero time (`none`)
being earliest. -/
def optTimeAfter (x y : Option Int) : Bool :=
  match x, y with
  | none, _ => false
  | some _, none => true
  | some a, some b => a > b

/-- Insertion step used to model `sort.Slice` with the
descending-update-time comparator. -/
def insertIssueByUpdatedDesc (i : IssueActivity) : List IssueActivity → List IssueActivity
  | [] => [i]
  | j :: rest =>
    if optTimeAfter i.updatedAt j.updatedAt then i :: j :: rest
    else j :: insertIssueByUpdatedDesc i rest

/-- Sorting of nested issues by descending update time (the comparator
of the `sort.Slice` calls in `nestGitLabIssues` / `nestGitHubIssues`). -/
def sortIssuesByUpdatedDesc (l : List IssueActivity) : List IssueActivity :=
  l.foldr insertIssueByUpdatedDesc []

/-- Normalized project path, issue key of an issue activity, as the
GitLab nesting and filtering code computes it. -/
def gitLabIssueActivityKey (issue : IssueActivity) : String :=
  buildGitLabIssueKey (normalizeProjectPathWithNamespace (gitLabProjectPath issue.owner issue.repo)) issue.issue.number

/-- Normalized merge-request key of a request activity, as the GitLab
nesting code computes it. -/
def gitLabPRActivityKey (a : PRActivity) : String :=
  buildGitLabMergeRequestKey (normalizeProjectPathWithNamespace (gitLabProjectPath a.owner a.repo)) a.mr.number

/-- Embedding of `nestGitLabIssues` from `platform_gitlab.go`: index
issues by key, reset each request's nested list, attach the issues
resolved from its linked-key set, sort them by descending update time. -/
def nestGitLabIssues (activities : List PRActivity) (issueActivities : List IssueActivity)
    (mrToIssueKeys : List (String × List String)) : List PRActivity :=
  let issueByKey := issueActivities.foldl
    (fun m issue => alInsert m (gitLabIssueActivityKey issue) issue) []
  activities.map (fun a =>
    let cleared := { a with issues := [] }
    match alLookup mrToIssueKeys (gitLabPRActivityKey a) with
    | none => cleared
    | some linkedKeys =>
      if linkedKeys.isEmpty then cleared
      else
        let nested := linkedKeys.foldl (fun acc issueKey =>
          match alLookup issueByKey issueKey with
          | none => acc
          | some issue => acc ++ [issue]) []
        { cleared with issues := sortIssuesByUpdatedDesc nested })

/-- Embedding of `filterStandaloneGitLabIssues` from
`platform_gitlab.go`: collect the keys of every nested issue, then keep
only the issues whose key was never nested. -/
def filterStandaloneGitLabIssues (activities : List PRActivity)
    (issueActivities : List IssueActivity) : List IssueActivity :=
  let linkedIssueKeys := activities.foldl (fun s a =>
    a.issues.foldl (fun s' issue => strSetInsert s' (gitLabIssueActivityKey issue)) s) []
  issueActivities.filter (fun issue => !(linkedIssueKeys.contains (gitLabIssueActivityKey issue)))

/-- Digit class `[0-9]` of the reference patterns. -/
def isDigitChar (c : Char) : Bool := '0' ≤ c && c ≤ '9'

/-- ASCII word class used by the `\b` boundary of Go's regexp package. -/
def isWordChar (c : Char) : Bool :=
  isDigitChar c || ('a' ≤ c && c ≤ 'z') || ('A' ≤ c && c ≤ 'Z') || c == '_'

/-- Character class `[a-z0-9_.-]` under the `(?i)` flag. -/
def isPathChar (c : Char) : Bool :=
  isDigitChar c || ('a' ≤ c && c ≤ 'z') || ('A' ≤ c && c ≤ 'Z') || c == '_' || c == '.' || c == '-'

/-- Whitespace class `\s` of Go's regexp package (`[\t\n\f\r ]`). -/
def isRegexSpace (c : Char) : Bool :=
  c == '\t' || c == '\n' || c == '\x0c' || c == '\r' || c == ' '

/-- Boundary check for `[0-9]+\b`: after a maximal digit run the match
survives the word boundary exactly when the input ends or continues with
a non-word character (a shorter digit prefix can never satisfy `\b`
because the following digit is a word character). -/
def digitBoundaryOK : List Char → Bool
  | [] => true
  | c :: _ => !isWordChar c

/-- Case-insensitive literal prefix strip, for the literal parts of the
`(?i)` patterns. -/
def stripLitCI : List Char → List Char → Option (List Char)
  | [], rest => some rest
  | _ :: _, [] => none
  | c :: lt, d :: dt => if goLowerChar c == goLowerChar d then stripLitCI lt dt else none

/-- Shape check for the capture `[a-z0-9_.-]+(?:/[a-z0-9_.-]+)+` (with
`(?i)`): at least two slash-separated segments, each a nonempty run of
path characters. -/
def validProjectRun (l : List Char) : Bool :=
  let segs := l.splitOn '/'
  decide (2 ≤ segs.length) && segs.all (fun s => !s.isEmpty && s.all isPathChar)

/-- Matcher for `gitLabIssueQualifiedRefPattern`
(`(?i)([a-z0-9_.-]+(?:/[a-z0-9_.-]+)+)#([0-9]+)\b`) at one position.
Path characters cannot contain `#`, so the capture is forced to be the
maximal path/slash run before a `#`; the digit run is maximal; then the
boundary.  Returns (project capture, digit capture) and the suffix after
the match. -/
def matchQualifiedAt (l : List Char) : Option ((String × String) × List Char) :=
  let run := l.takeWhile (fun c => isPathChar c || c == '/')
  match l.drop run.length with
  | '#' :: rest2 =>
    if validProjectRun run then
      let digits := rest2.takeWhile isDigitChar
      let rest3 := rest2.drop digits.length
      if !digits.isEmpty && digitBoundaryOK rest3 then some ((⟨run⟩, ⟨digits⟩), rest3)
      else none
    else none
  | _ => none

/-- Scheme part `https?://` of `gitLabIssueURLRefPattern`, preferring the
`s` branch as the greedy `s?` does. -/
def matchURLSchemeAt (l : List Char) : Option (List Char) :=
  match stripLitCI "https://".data l with
  | some rest => some rest
  | none => stripLitCI "http://".data l

/-- Tail of the URL pattern after `[^\s]+/`: a greedy project capture
followed by the issues-fragment literal, digits and a boundary.  Greediness
is realized by trying the longest capture first. -/
def matchURLGroupTail (m : List Char) : Option ((String × String) × List Char) :=
  (List.range (m.length + 1)).reverse.findSome? (fun j =>
    let g := m.take j
    if validProjectRun g then
      match stripLitCI "/-/issues/".data (m.drop j) with
      | none => none
      | some afterLit =>
        let digits := afterLit.takeWhile isDigitChar
        let rest3 := afterLit.drop digits.length
        if !digits.isEmpty && digitBoundaryOK rest3 then some ((⟨g⟩, ⟨digits⟩), rest3)
        else none
    else none)

/-- Matcher for `gitLabIssueURLRefPattern`
(scheme, host part, project capture, issues fragment, digits, boundary)
at one position: scheme, then the greedy `[^\s]+` (longest split tried
first, as the backtracking preference order dictates), a slash, and the
project/issue tail. -/
def matchURLAt (l : List Char) : Option ((String × String) × List Char) :=
  match matchURLSchemeAt l with
  | none => none
  | some rest =>
    (List.range (rest.length + 1)).reverse.findSome? (fun k =>
      if k = 0 then none
      else
        let a := rest.take k
        if a.all (fun c => !isRegexSpace c) then
          match rest.drop k with
          | '/' :: afterSlash => matchURLGroupTail afterSlash
          | _ => none
        else none)

/-- Matcher for `gitLabIssueRelativeURLRefPattern`
(the project-relative issues fragment followed by digits and a boundary)
at one position. -/
def matchRelativeAt (l : List Char) : Option (String × List Char) :=
  match stripLitCI "/-/issues/".data l with
  | none => none
  | some rest =>
    let digits := rest.takeWhile isDigitChar
    let rest3 := rest.drop digits.length
    if !digits.isEmpty && digitBoundaryOK rest3 then some (⟨digits⟩, rest3) else none

/-- Matcher for the `#([0-9]+)\b` core of
`gitLabIssueSameProjectRefPattern`. -/
def matchHashDigits (l : List Char) : Option (String × List Char) :=
  match l with
  | '#' :: rest =>
    let digits := rest.takeWhile isDigitChar
    let rest3 := rest.drop digits.length
    if !digits.isEmpty && digitBoundaryOK rest3 then some (⟨digits⟩, rest3) else none
  | _ => none

/-- Scan driver reproducing `FindAllStringSubmatch`: successive
leftmost, non-overlapping matches; on failure advance one character.
Every step moves at least one character forward, so fuel `length + 1`
suffices for the whole input. -/
def regexScanAux {γ : Type} (matchAt : List Char → Option (γ × List Char)) :
    Nat → List Char → List γ
  | 0, _ => []
  | _ + 1, [] => []
  | fuel + 1, c :: t =>
    match matchAt (c :: t) with
    | some (cap, rest) => cap :: regexScanAux matchAt fuel rest
    | none => regexScanAux matchAt fuel t

/-- Scan a string with a positional matcher. -/
def regexScan {γ : Type} (matchAt : List Char → Option (γ × List Char)) (s : String) : List γ :=
  regexScanAux matchAt (s.data.length + 1) s.data

/-- Scan driver for `gitLabIssueSameProjectRefPattern`
(`(?i)(?:^|[^a-z0-9_])#([0-9]+)\b`): at the very start the `^`
alternative is preferred; elsewhere the match consumes one non-word
guard character before the `#`. -/
def sameRefScanAux : Nat → Bool → List Char → List String
  | 0, _, _ => []
  | _ + 1, _, [] => []
  | fuel + 1, atStart, c :: t =>
    if atStart then
      match matchHashDigits (c :: t) with
      | some (cap, rest) => cap :: sameRefScanAux fuel false rest
      | none =>
        match (if !isWordChar c then matchHashDigits t else none) with
        | some (cap, rest) => cap :: sameRefScanAux fuel false rest
        | none => sameRefScanAux fuel false t
    else
      match (if !isWordChar c then matchHashDigits t else none) with
      | some (cap, rest) => cap :: sameRefScanAux fuel false rest
      | none => sameRefScanAux fuel false t

/-- Scan for the same-project reference pattern. -/
def sameRefScan (s : String) : List String :=
  sameRefScanAux (s.data.length + 1) true s.data

/-- Embedding of `parsePositiveInt` from `platform_gitlab.go`. -/
def parsePositiveInt (raw : String) : Option Int :=
  match goAtoi (goTrim raw) with
  | none => none
  | some value => if value ≤ 0 then none else some value

/-- Embedding of `gitLabIssueReferenceKeysFromText` from
`platform_gitlab.go`: union the captures of the four patterns in source
order (URL, qualified, then — only under a nonempty default project —
relative URL and bare `#N`), discarding non-positive numbers.  The Go
`map[string]struct{}` result becomes an insertion-ordered
duplicate-free list. -/
def gitLabIssueReferenceKeysFromText (text defaultProjectPath : String) : List String :=
  if goTrim text = "" then []
  else
    let results : List String := []
    let results := (regexScan matchURLAt text).foldl (fun acc cap =>
      match parsePositiveInt cap.2 with
      | none => acc
      | some iid => strSetInsert acc (buildGitLabIssueKey cap.1 iid)) results
    let results := (regexScan matchQualifiedAt text).foldl (fun acc cap =>
      match parsePositiveInt cap.2 with
      | none => acc
      | some iid => strSetInsert acc (buildGitLabIssueKey cap.1 iid)) results
    let dpp := normalizeProjectPathWithNamespace defaultProjectPath
    if dpp ≠ "" then
      let results := (regexScan matchRelativeAt text).foldl (fun acc cap =>
        match parsePositiveInt cap with
        | none => acc
        | some iid => strSetInsert acc (buildGitLabIssueKey dpp iid)) results
      (sameRefScan text).foldl (fun acc cap =>
        match parsePositiveInt cap with
        | none => acc
        | some iid => strSetInsert acc (buildGitLabIssueKey dpp iid)) results
    else results

/-- Embedding of `parseGitLabQualifiedReference` from
`platform_gitlab.go`: first qualified match whose number parses as a
positive integer. -/
def parseGitLabQualifiedReference (reference : String) : Option (String × Int) :=
  (regexScan matchQualifiedAt reference).findSome? (fun cap =>
    match parsePositiveInt cap.2 with
    | none => none
    | some iid => some (normalizeProjectPathWithNamespace cap.1, iid))

/-- Issue record returned by the closes-issues endpoint, with the fields
`gitLabIssueKeyFromIssue` reads (`IID` and `References.Full`, the latter
behind a nil-able pointer). -/
structure GLClosedIssue where
  iid : Int
  referencesFull : Option String
deriving DecidableEq, Repr

/-- Embedding of `gitLabIssueKeyFromIssue` from `platform_gitlab.go`. -/
def gitLabIssueKeyFromIssue (item : Option GLClosedIssue) (defaultProjectPath : String) : Option String :=
  match item with
  | none => none
  | some it =>
    if it.iid ≤ 0 then none
    else
      let viaRef := match it.referencesFull with
        | some full => parseGitLabQualifiedReference full
        | none => none
      match viaRef with
      | some (projectPath, iid) => some (buildGitLabIssueKey projectPath iid)
      | none =>
        let dpp := normalizeProjectPathWithNamespace defaultProjectPath
        if dpp = "" then none
        else some (buildGitLabIssueKey dpp it.iid)

/-- A cache write attempt, identifying what `SaveGitLabMergeRequestWithLabel`,
`SaveGitLabIssueWithLabel` or `SaveGitLabNote` was asked to store. -/
inductive GLSaveCall where
  | mrSave (pathWithNamespace : String) (number : Int)
  | issueSave (pathWithNamespace : String) (number : Int)
  | noteSave (pathWithNamespace itemType : String) (itemIID noteID : Int)
deriving DecidableEq, Repr

/-- Outcome oracle for cache writes: `true` means the BBolt put
succeeded.  The store is an external collaborator, so its per-call
behaviour is an input. -/
def GLSaveOracle : Type := GLSaveCall → Bool

/-- Loop of `persistGitLabNotes`: save each non-nil note, stopping at
the first failure.  Returns whether all attempted saves succeeded and
the list of attempted save calls. -/
def persistGitLabNotesLoop (oracle : GLSaveOracle) (projectPath itemType : String) (itemIID : Int) :
    List (Option GLNote) → Bool × List GLSaveCall
  | [] => (true, [])
  | none :: rest => persistGitLabNotesLoop oracle projectPath itemType itemIID rest
  | some n :: rest =>
    let call := GLSaveCall.noteSave projectPath itemType itemIID n.id
    if oracle call then
      let res := persistGitLabNotesLoop oracle projectPath itemType itemIID rest
      (res.1, call :: res.2)
    else (false, [call])

/-- Embedding of `persistGitLabNotes` from `platform_gitlab.go`: a nil
database or an empty note list is a silent success. -/
def persistGitLabNotes (dbPresent : Bool) (oracle : GLSaveOracle)
    (projectPath itemType : String) (itemIID : Int) (notes : List (Option GLNote)) :
    Bool × List GLSaveCall :=
  if !dbPresent || notes.isEmpty then (true, [])
  else persistGitLabNotesLoop oracle projectPath itemType itemIID notes

/-- Cutoff filter `model.UpdatedAt.IsZero() || model.UpdatedAt.Before(cutoff)`. -/
def modelTimeTooOld (t : Option Int) (cutoff : Int) : Bool :=
  match t with
  | none => true
  | some v => v < cutoff

/-- One allowed project as `resolveAllowedGitLabProjects` returns it,
together with the oracle outcomes of the two paginated list calls made
for it. -/
structure GLProjectEnv where
  pathWithNamespace : String
  id : Int
  mergeRequests : Except String (List GLBasicMergeRequest)
  issues : Except String (List GLIssue)

/-- Environment of one fetch cycle: the project-resolution outcome, the
current user, the cutoff, and the oracle outcomes of the two
per-merge-request endpoints used during linking (closes-issues and
note refetch), keyed by project id and merge-request number. -/
structure GLFetchEnv where
  projects : Except String (List GLProjectEnv)
  currentUsername : String
  currentUserID : Int
  cutoff : Int
  closedIssuesEndpoint : Int → Int → Except String (List (Option GLClosedIssue))
  mrNotesEndpoint : Int → Int → Except String (List (Option GLNote))

/-- Value accumulator of the fetch loops (everything except the
database-error counter and the write trace, which are returned
additively). -/
structure GLFetchAccum where
  activities : List PRActivity
  issueActivities : List IssueActivity
  seenMergeRequests : List String
  seenIssues : List String
  mrNotesByKey : List (String × List (Option GLNote))

/-- Owner/repo decomposition used when building an activity:
`splitGitLabPathWithNamespace` with the fallback of the whole path as
owner. -/
def gitLabOwnerRepo (pathWithNamespace : String) : String × String :=
  match splitGitLabPathWithNamespace pathWithNamespace with
  | some p => p
  | none => (pathWithNamespace, "")

/-- Merge-request loop of `fetchGitLabProjectActivities` (lines 470-517
of `platform_gitlab.go`): dedup by lower-cased key, convert, apply the
cutoff, derive the label (an error aborts the fetch), best-effort save
of the item and its notes, record the notes for linking, append the
activity.  Returns (abort error, value accumulator, database-error
increments, attempted save calls). -/
def processGitLabMergeRequests (dbPresent : Bool) (oracle : GLSaveOracle)
    (currentUsername : String) (currentUserID : Int) (cutoff : Int) (project : GLProjectEnv) :
    List GLBasicMergeRequest → GLFetchAccum → Option String × GLFetchAccum × Nat × List GLSaveCall
  | [], acc => (none, acc, 0, [])
  | item :: rest, acc =>
    let key := buildGitLabDedupKey project.pathWithNamespace "mr" item.iid
    if acc.seenMergeRequests.contains key then
      processGitLabMergeRequests dbPresent oracle currentUsername currentUserID cutoff project rest acc
    else
      let acc1 := { acc with seenMergeRequests := strSetInsert acc.seenMergeRequests key }
      let model := toMergeRequestModelFromGitLab (some item)
      if modelTimeTooOld model.updatedAt cutoff then
        processGitLabMergeRequests dbPresent oracle currentUsername currentUserID cutoff project rest acc1
      else
        match deriveGitLabMergeRequestLabel (some item) currentUsername currentUserID with
        | (.error e, _) =>
          (some ("derive merge request label for " ++ project.pathWithNamespace ++ ": " ++ e), acc1, 0, [])
        | (.ok (label, notes), _) =>
          let mrCall := GLSaveCall.mrSave project.pathWithNamespace model.number
          let saveEff : Nat × List GLSaveCall :=
            if dbPresent then ((if oracle mrCall then 0 else 1), [mrCall]) else (0, [])
          let persistRes := persistGitLabNotes dbPresent oracle project.pathWithNamespace "mr" item.iid notes
          let persistEff : Nat × List GLSaveCall := ((if persistRes.1 then 0 else 1), persistRes.2)
          let mrKey := buildGitLabMergeRequestKey project.pathWithNamespace model.number
          let ownerRepo := gitLabOwnerRepo project.pathWithNamespace
          let activity : PRActivity :=
            { label := label, owner := ownerRepo.1, repo := ownerRepo.2, mr := model,
              updatedAt := model.updatedAt, hasUpdates := false, issues := [] }
          let acc2 := { acc1 with
            activities := acc1.activities ++ [activity],
            mrNotesByKey := alInsert acc1.mrNotesByKey mrKey notes }
          let res := processGitLabMergeRequests dbPresent oracle currentUsername currentUserID cutoff project rest acc2
          (res.1, res.2.1, saveEff.1 + persistEff.1 + res.2.2.1, saveEff.2 ++ persistEff.2 ++ res.2.2.2)

/-- Issue loop of `fetchGitLabProjectActivities` (lines 524-569 of
`platform_gitlab.go`), mirroring the merge-request loop. -/
def processGitLabIssues (dbPresent : Bool) (oracle : GLSaveOracle)
    (currentUsername : String) (currentUserID : Int) (cutoff : Int) (project : GLProjectEnv) :
    List GLIssue → GLFetchAccum → Option String × GLFetchAccum × Nat × List GLSaveCall
  | [], acc => (none, acc, 0, [])
  | item :: rest, acc =>
    let key := buildGitLabDedupKey project.pathWithNamespace "issue" item.iid
    if acc.seenIssues.contains key then
      processGitLabIssues dbPresent oracle currentUsername currentUserID cutoff project rest acc
    else
      let acc1 := { acc with seenIssues := strSetInsert acc.seenIssues key }
      let model := toIssueModelFromGitLab (some item)
      if modelTimeTooOld model.updatedAt cutoff then
        processGitLabIssues dbPresent oracle currentUsername currentUserID cutoff project rest acc1
      else
        match deriveGitLabIssueLabel (some item) currentUsername currentUserID with
        | (.error e, _) =>
          (some ("derive issue label for " ++ project.pathWithNamespace ++ ": " ++ e), acc1, 0, [])
        | (.ok (label, notes), _) =>
          let issueCall := GLSaveCall.issueSave project.pathWithNamespace model.number
          let saveEff : Nat × List GLSaveCall :=
            if dbPresent then ((if oracle issueCall then 0 else 1), [issueCall]) else (0, [])
          let persistRes := persistGitLabNotes dbPresent oracle project.pathWithNamespace "issue" item.iid notes
          let persistEff : Nat × List GLSaveCall := ((if persistRes.1 then 0 else 1), persistRes.2)
          let ownerRepo := gitLabOwnerRepo project.pathWithNamespace
          let activity : IssueActivity :=
            { label := label, owner := ownerRepo.1, repo := ownerRepo.2, issue := model,
              updatedAt := model.updatedAt, hasUpdates := false }
          let acc2 := { acc1 with issueActivities := acc1.issueActivities ++ [activity] }
          let res := processGitLabIssues dbPresent oracle currentUsername currentUserID cutoff project rest acc2
          (res.1, res.2.1, saveEff.1 + persistEff.1 + res.2.2.1, saveEff.2 ++ persistEff.2 ++ res.2.2.2)

/-- Project loop of `fetchGitLabProjectActivities`: for each allowed
project list its merge requests and issues (a list failure aborts the
fetch with a wrapped error) and process the items. -/
def processGitLabProjects (dbPresent : Bool) (oracle : GLSaveOracle)
    (currentUsername : String) (currentUserID : Int) (cutoff : Int) :
    List GLProjectEnv → GLFetchAccum → Option String × GLFetchAccum × Nat × List GLSaveCall
  | [], acc => (none, acc, 0, [])
  | p :: rest, acc =>
    match p.mergeRequests with
    | .error e => (some ("list merge requests for " ++ p.pathWithNamespace ++ ": " ++ e), acc, 0, [])
    | .ok mrs =>
      let r1 := processGitLabMergeRequests dbPresent oracle currentUsername currentUserID cutoff p mrs acc
      match r1.1 with
      | some e => (some e, r1.2.1, r1.2.2.1, r1.2.2.2)
      | none =>
        match p.issues with
        | .error e =>
          (some ("list issues for " ++ p.pathWithNamespace ++ ": " ++ e), r1.2.1, r1.2.2.1, r1.2.2.2)
        | .ok iss =>
          let r2 := processGitLabIssues dbPresent oracle currentUsername currentUserID cutoff p iss r1.2.1
          match r2.1 with
          | some e => (some e, r2.2.1, r1.2.2.1 + r2.2.2.1, r1.2.2.2 ++ r2.2.2.2)
          | none =>
            let r3 := processGitLabProjects dbPresent oracle currentUsername currentUserID cutoff rest r2.2.1
            (r3.1, r3.2.1, r1.2.2.1 + r2.2.2.1 + r3.2.2.1, r1.2.2.2 ++ r2.2.2.2 ++ r3.2.2.2)

/-- Per-request loop of `linkGitLabCrossReferencesOnline` (lines 817-872
of `platform_gitlab.go`): prefer the closes-issues endpoint (no fallback
on success, even with an empty result); on endpoint failure fall back to
reference extraction over the body, then over the notes (refetched and
best-effort persisted when not already known from derivation).  Returns
the linked-key map, the updated notes map, the database-error increments
and the attempted save calls. -/
def linkGitLabOnlineLoop (env : GLFetchEnv) (dbPresent : Bool) (oracle : GLSaveOracle)
    (projectIDByPath : List (String × Int)) :
    List PRActivity → List (String × List String) → List (String × List (Option GLNote)) →
    List (String × List String) × List (String × List (Option GLNote)) × Nat × List GLSaveCall
  | [], m, notesMap => (m, notesMap, 0, [])
  | a :: rest, m, notesMap =>
    let projectPath := normalizeProjectPathWithNamespace (gitLabProjectPath a.owner a.repo)
    match alLookup projectIDByPath projectPath with
    | none => linkGitLabOnlineLoop env dbPresent oracle projectIDByPath rest m notesMap
    | some projectID =>
      let mrKey := buildGitLabMergeRequestKey projectPath a.mr.number
      match env.closedIssuesEndpoint projectID a.mr.number with
      | .ok closedIssues =>
        let resolvedKeys := closedIssues.foldl (fun s item =>
          match gitLabIssueKeyFromIssue item projectPath with
          | none => s
          | some k => strSetInsert s k) []
        let m' := if resolvedKeys.isEmpty then m else alInsert m mrKey resolvedKeys
        linkGitLabOnlineLoop env dbPresent oracle projectIDByPath rest m' notesMap
      | .error _ =>
        let bodyKeys := gitLabIssueReferenceKeysFromText a.mr.body projectPath
        if bodyKeys.isEmpty then
          let cached := (alLookup notesMap mrKey).getD []
          let fetched : List (Option GLNote) × List (String × List (Option GLNote)) × Nat × List GLSaveCall :=
            if cached.isEmpty then
              match env.mrNotesEndpoint projectID a.mr.number with
              | .ok notes =>
                let persistRes := persistGitLabNotes dbPresent oracle projectPath "mr" a.mr.number notes
                (notes, alInsert notesMap mrKey notes, (if persistRes.1 then 0 else 1), persistRes.2)
              | .error _ => ([], notesMap, 0, [])
            else (cached, notesMap, 0, [])
          let noteKeys := fetched.1.foldl (fun s note =>
            match note with
            | none => s
            | some n => (gitLabIssueReferenceKeysFromText n.body projectPath).foldl strSetInsert s) []
          let m' := if noteKeys.isEmpty then m else alInsert m mrKey noteKeys
          let res := linkGitLabOnlineLoop env dbPresent oracle projectIDByPath rest m' fetched.2.1
          (res.1, res.2.1, fetched.2.2.1 + res.2.2.1, fetched.2.2.2 ++ res.2.2.2)
        else
          let m' := alInsert m mrKey bodyKeys
          linkGitLabOnlineLoop env dbPresent oracle projectIDByPath rest m' notesMap

/-- Embedding of `linkGitLabCrossReferencesOnline` from
`platform_gitlab.go`: build the linked-key map per request, then nest
and compute the standalone issues. -/
def linkGitLabCrossReferencesOnline (env : GLFetchEnv) (dbPresent : Bool) (oracle : GLSaveOracle)
    (activities : List PRActivity) (issueActivities : List IssueActivity)
    (projectIDByPath : List (String × Int)) (mrNotesByKey : List (String × List (Option GLNote))) :
    (List PRActivity × List IssueActivity) × Nat × List GLSaveCall :=
  let r := linkGitLabOnlineLoop env dbPresent oracle projectIDByPath activities [] mrNotesByKey
  let nested := nestGitLabIssues activities issueActivities r.1
  ((nested, filterStandaloneGitLabIssues nested issueActivities), r.2.2.1, r.2.2.2)

/-- Embedding of `fetchGitLabProjectActivities` from
`platform_gitlab.go`: resolve the allowed projects, require a nonempty
current username, process every project, then link cross references
online.  Returns the fetch outcome together with the value of the
`dbErrorCount` counter contributed by this call and the trace of
attempted cache writes. -/
def fetchGitLabProjectActivities (env : GLFetchEnv) (dbPresent : Bool) (oracle : GLSaveOracle) :
    Except String (List PRActivity × List IssueActivity) × Nat × List GLSaveCall :=
  match env.projects with
  | .error e => (.error e, 0, [])
  | .ok projects =>
    if goTrim env.currentUsername = "" then (.error "gitlab current username is required", 0, [])
    else if projects.isEmpty then (.ok ([], []), 0, [])
    else
      let projectIDByPath := projects.foldl (fun m p =>
        alInsert m (normalizeProjectPathWithNamespace p.pathWithNamespace) p.id) []
      let r := processGitLabProjects dbPresent oracle env.currentUsername env.currentUserID env.cutoff
        projects ⟨[], [], [], [], []⟩
      match r.1 with
      | some e => (.error e, r.2.2.1, r.2.2.2)
      | none =>
        let lr := linkGitLabCrossReferencesOnline env dbPresent oracle
          r.2.1.activities r.2.1.issueActivities projectIDByPath r.2.1.mrNotesByKey
        (.ok lr.1, r.2.2.1 + lr.2.1, r.2.2.2 ++ lr.2.2)

/-- GitHub pull-request review comment record
(`GitHubPRReviewCommentRecord` in the Go code). -/
structure GHReviewComment where
  owner : String
  repo : String
  prNumber : Int
  commentID : Int
  body : String
  authorUsername : String
  authorID : Int
deriving DecidableEq, Repr

/-- Modelled from the spec: `buildGitHubItemKey` lives in the GitHub
database file, which is not among the provided sources; per §4.5 the
identity encoding is a reversible string over project path and number,
and `parseGitHubItemKey` in `platform_github.go` inverts exactly
`owner/repo#number`, which pins this definition down. -/
def buildGitHubItemKey (owner repo : String) (number : Int) : String :=
  owner ++ "/" ++ repo ++ "#" ++ toString number

/-- Embedding of `areGitHubCrossReferenced` from `platform_github.go`.
The text matcher `mentionsNumber` is abstracted as a parameter: the
nesting invariant proved about this function holds for every such
matcher, which is strictly stronger than fixing the three GitHub
reference patterns. -/
def areGitHubCrossReferenced (mentionsNumber : String → Int → String → String → Bool)
    (prActivity : PRActivity) (issueActivity : IssueActivity)
    (reviewComments : List GHReviewComment) : Bool :=
  if !(goEqualFold (goTrim prActivity.owner) (goTrim issueActivity.owner)) then false
  else if !(goEqualFold (goTrim prActivity.repo) (goTrim issueActivity.repo)) then false
  else if mentionsNumber prActivity.mr.body issueActivity.issue.number prActivity.owner prActivity.repo then true
  else if mentionsNumber issueActivity.issue.body prActivity.mr.number prActivity.owner prActivity.repo then true
  else reviewComments.any (fun c =>
    mentionsNumber c.body issueActivity.issue.number prActivity.owner prActivity.repo)

/-- Embedding of `nestGitHubIssues` from `platform_github.go`: index the
issues by key, reset each pull request's nested list, attach every issue
that is cross-referenced with it (resolved through the index), sort by
descending update time. -/
def nestGitHubIssues (mentionsNumber : String → Int → String → String → Bool)
    (activities : List PRActivity) (issueActivities : List IssueActivity)
    (prReviewComments : List (String × List GHReviewComment)) : List PRActivity :=
  let issueByKey := issueActivities.foldl (fun m issue =>
    alInsert m (buildGitHubItemKey issue.owner issue.repo issue.issue.number) issue) []
  activities.map (fun a =>
    let cleared := { a with issues := [] }
    let key := buildGitHubItemKey a.owner a.repo a.mr.number
    let comments := (alLookup prReviewComments key).getD []
    let nested := issueActivities.foldl (fun acc issue =>
      if areGitHubCrossReferenced mentionsNumber cleared issue comments then
        match alLookup issueByKey (buildGitHubItemKey issue.owner issue.repo issue.issue.number) with
        | some nestedIssue => acc ++ [nestedIssue]
        | none => acc
      else acc) []
    { cleared with issues := sortIssuesByUpdatedDesc nested })

/-- Embedding of `filterStandaloneGitHubIssues` from
`platform_github.go`. -/
def filterStandaloneGitHubIssues (activities : List PRActivity)
    (issueActivities : List IssueActivity) : List IssueActivity :=
  let nestedIssueKeys := activities.foldl (fun s a =>
    a.issues.foldl (fun s' issue =>
      strSetInsert s' (buildGitHubItemKey issue.owner issue.repo issue.issue.number)) s) []
  issueActivities.filter (fun issue =>
    !(nestedIssueKeys.contains (buildGitHubItemKey issue.owner issue.repo issue.issue.number)))

/-- Number of failed writes among a trace of attempted cache writes,
under a given write-outcome oracle. -/
def countSaveFailures (oracle : GLSaveOracle) (tr : List GLSaveCall) : Nat :=
  (tr.filter (fun c => !(oracle c))).length

/-- Facts about the signal label tables: signal labels are nonempty and
their priorities are injective within a domain. -/
theorem gitLabSignalLabels_facts (isPR : Bool) :
    ∀ x ∈ gitLabSignalLabels isPR, x ≠ "" ∧
      ∀ y ∈ gitLabSignalLabels isPR, labelPriority isPR x = labelPriority isPR y → x = y := by
  cases isPR <;> decide

/-- Unfolding of `shouldUpdateLabel` through `labelPriority`. -/
theorem shouldUpdateLabel_eq (c n : String) (isPR : Bool) :
    shouldUpdateLabel c n isPR
      = if c = "" then true else decide (labelPriority isPR n < labelPriority isPR c) := by
  cases isPR <;> rfl

/-- Merge of two nonempty labels with injective priorities is symmetric. -/
theorem merge_comm_base (isPR : Bool) (x y : String) (hx0 : x ≠ "") (hy0 : y ≠ "")
    (hinj : labelPriority isPR x = labelPriority isPR y → x = y) :
    mergeLabelWithPriority x y isPR = mergeLabelWithPriority y x isPR := by
  simp only [mergeLabelWithPriority, shouldUpdateLabel_eq, hx0, hy0, if_false, if_neg hx0, if_neg hy0]
  rcases lt_trichotomy (labelPriority isPR x) (labelPriority isPR y) with h | h | h
  · simp [Nat.not_lt_of_lt h, h]
  · simp [hinj h, h]
  · simp [Nat.not_lt_of_lt h, h]

/-- Left commutativity of the label merge on signal labels, for an
arbitrary accumulated label. -/
theorem merge_comm_of_labels (isPR : Bool) (x y : String)
    (hx : x ∈ gitLabSignalLabels isPR) (hy : y ∈ gitLabSignalLabels isPR) (z : String) :
    mergeLabelWithPriority (mergeLabelWithPriority z x isPR) y isPR
      = mergeLabelWithPriority (mergeLabelWithPriority z y isPR) x isPR := by
  obtain ⟨hx0, hxinj⟩ := gitLabSignalLabels_facts isPR x hx
  obtain ⟨hy0, _⟩ := gitLabSignalLabels_facts isPR y hy
  have hbase := merge_comm_base isPR x y hx0 hy0 (hxinj y hy)
  by_cases hz : z = ""
  · subst hz
    have e1 : mergeLabelWithPriority "" x isPR = x := by
      simp [mergeLabelWithPriority, shouldUpdateLabel_eq]
    have e2 : mergeLabelWithPriority "" y isPR = y := by
      simp [mergeLabelWithPriority, shouldUpdateLabel_eq]
    rw [e1, e2, hbase]
  · have ex : mergeLabelWithPriority z x isPR
        = if labelPriority isPR x < labelPriority isPR z then x else z := by
      simp [mergeLabelWithPriority, shouldUpdateLabel_eq, hz]
    have ey : mergeLabelWithPriority z y isPR
        = if labelPriority isPR y < labelPriority isPR z then y else z := by
      simp [mergeLabelWithPriority, shouldUpdateLabel_eq, hz]
    by_cases h1 : labelPriority isPR x < labelPriority isPR z
    · by_cases h2 : labelPriority isPR y < labelPriority isPR z
      · rw [ex, ey, if_pos h1, if_pos h2, hbase]
      · rw [ex, ey, if_pos h1, if_neg h2]
        have hyx : ¬ labelPriority isPR y < labelPriority isPR x := by omega
        have exy : mergeLabelWithPriority x y isPR = x := by
          simp [mergeLabelWithPriority, shouldUpdateLabel_eq, hx0, hyx]
        have ezx : mergeLabelWithPriority z x isPR = x := by rw [ex, if_pos h1]
        rw [exy, ezx]
    · by_cases h2 : labelPriority isPR y < labelPriority isPR z
      · rw [ex, ey, if_neg h1, if_pos h2]
        have hxy : ¬ labelPriority isPR x < labelPriority isPR y := by omega
        have eyx : mergeLabelWithPriority y x isPR = y := by
          simp [mergeLabelWithPriority, shouldUpdateLabel_eq, hy0, hxy]
        have ezy : mergeLabelWithPriority z y isPR = y := by rw [ey, if_pos h2]
        rw [ezy, eyx]
      · rw [ex, ey, if_neg h1, if_neg h2]
        rw [ey, ex, if_neg h2, if_neg h1]

/-- C1 (counterexample): the claim that cache identity keys are
case-normalized is false: `buildGitLabMergeRequestKey` and
`buildGitLabIssueKey` only trim, so the two case-spellings
`"Group/Repo"` and `"group/repo"` of one project produce distinct
identity keys (hence two distinct cache entries), for both item kinds. -/
theorem c1_case_collision_counterexample :
    buildGitLabMergeRequestKey "Group/Repo" 5 ≠ buildGitLabMergeRequestKey "group/repo" 5
    ∧ buildGitLabIssueKey "Group/Repo" 5 ≠ buildGitLabIssueKey "group/repo" 5 := by
  decide

/-- C1 (amended): cache identity keys are whitespace- and slash-trimmed
but not case-normalized: spellings with equal trimmed form collide to
one key, while the differently-cased spellings `"Group/Repo"` and
`"group/repo"` yield distinct keys. -/
theorem c1_identity_key_amended :
    (∀ p₁ p₂ : String, ∀ n : Int,
      normalizeProjectPathWithNamespace p₁ = normalizeProjectPathWithNamespace p₂ →
      buildGitLabMergeRequestKey p₁ n = buildGitLabMergeRequestKey p₂ n
        ∧ buildGitLabIssueKey p₁ n = buildGitLabIssueKey p₂ n)
    ∧ buildGitLabMergeRequestKey "/group/repo/" 5 = buildGitLabMergeRequestKey "group/repo" 5
    ∧ buildGitLabMergeRequestKey "Group/Repo" 5 ≠ buildGitLabMergeRequestKey "group/repo" 5 := by
  refine ⟨fun p₁ p₂ n h => ?_, by decide, by decide⟩
  constructor
  · simp only [buildGitLabMergeRequestKey, h]
  · simp only [buildGitLabIssueKey, h]

/-- C1 witness: the amended collision statement applied to concrete
spellings that differ only in surrounding whitespace and slashes. -/
theorem c1_identity_key_amended_witness :
    normalizeProjectPathWithNamespace " group/repo/ " = normalizeProjectPathWithNamespace "group/repo"
    ∧ buildGitLabMergeRequestKey " group/repo/ " 7 = buildGitLabMergeRequestKey "group/repo" 7 :=
  ⟨by decide, (c1_identity_key_amended.1 " group/repo/ " "group/repo" 7 (by decide)).1⟩

/-- C2: folding any permutation of a multiset of signal labels with
`mergeLabelWithPriority`, starting from the empty label, yields the same
final label — order-independence of the monotonic merge within one
domain. -/
theorem c2_label_fold_perm_invariant (isPR : Bool) (l₁ l₂ : List String)
    (hmem : ∀ x ∈ l₁, x ∈ gitLabSignalLabels isPR) (hperm : l₁.Perm l₂) :
    l₁.foldl (fun c n => mergeLabelWithPriority c n isPR) ""
      = l₂.foldl (fun c n => mergeLabelWithPriority c n isPR) "" :=
  hperm.foldl_eq' (fun x hx y hy z => merge_comm_of_labels isPR x y (hmem x hx) (hmem y hy) z) ""

/-- C2 witness: a concrete permutation of request signal labels folds to
the same label. -/
theorem c2_label_fold_perm_invariant_witness :
    (∀ x ∈ (["Mentioned", "Authored", "Commented"] : List String), x ∈ gitLabSignalLabels true)
    ∧ List.Perm ["Mentioned", "Authored", "Commented"] ["Commented", "Mentioned", "Authored"]
    ∧ (["Mentioned", "Authored", "Commented"] : List String).foldl
        (fun c n => mergeLabelWithPriority c n true) ""
      = (["Commented", "Mentioned", "Authored"] : List String).foldl
        (fun c n => mergeLabelWithPriority c n true) "" :=
  ⟨by decide, by decide,
    c2_label_fold_perm_invariant true _ _ (by decide) (by decide)⟩

/-- C7: an error with an HTTP status that is neither 429 nor in 500-599
is not retryable: the loop returns it after the single failed attempt,
without waiting. -/
theorem c7_non_retryable_status_returns_immediately
    (statusCode : Int) (retryAfterH resetH : String) (now : Int) (rest : List RetryAttemptCtx)
    (h1 : statusCode ≠ 429) (h2 : ¬(500 ≤ statusCode ∧ statusCode ≤ 599)) :
    retryWithBackoffModel (⟨some (.httpError statusCode retryAfterH resetH), now⟩ :: rest)
      = .terminalError (.httpError statusCode retryAfterH resetH) 1 0 := by
  simp [retryWithBackoffModel, retryWithBackoffRun, retryDecision, h1, h2]

/-- C7 witness: a 404 response is returned at once. -/
theorem c7_non_retryable_witness :
    ((404 : Int) ≠ 429) ∧ ¬(500 ≤ (404 : Int) ∧ (404 : Int) ≤ 599)
    ∧ retryWithBackoffModel [⟨some (.httpError 404 "" ""), 0⟩]
        = .terminalError (.httpError 404 "" "") 1 0 :=
  ⟨by decide, by decide,
    c7_non_retryable_status_returns_immediately 404 "" "" 0 [] (by decide) (by decide)⟩

/-- C8: within one domain, merging a candidate into a nonempty current
label never increases the priority number: the merged label's priority
is at most the current label's. -/
theorem c8_merge_never_decreases_priority (isPR : Bool) (c n : String) (h : c ≠ "") :
    labelPriority isPR (mergeLabelWithPriority c n isPR) ≤ labelPriority isPR c := by
  simp only [mergeLabelWithPriority, shouldUpdateLabel_eq, if_neg h]
  by_cases hlt : labelPriority isPR n < labelPriority isPR c
  · simp [hlt]
    omega
  · simp [hlt]

/-- C8 witness: merging `Authored` into `Commented` keeps the priority
at most that of `Commented`. -/
theorem c8_merge_never_decreases_priority_witness :
    ("Commented" : String) ≠ ""
    ∧ labelPriority true (mergeLabelWithPriority "Commented" "Authored" true)
        ≤ labelPriority true "Commented" :=
  ⟨by decide, c8_merge_never_decreases_priority true "Commented" "Authored" (by decide)⟩

/-- Helper: when the reset header parses to a positive timestamp, the
reset wait is the time difference with a 1 s floor applied only when the
difference is non-positive. -/
theorem gitLabRateLimitResetWait_of_parse (resetH : String) (now r : Int)
    (hparse : goAtoi (goTrim resetH) = some r) (hpos : 0 < r) :
    gitLabRateLimitResetWait resetH now
      = some (if r * goSecondNs - now ≤ 0 then goSecondNs else r * goSecondNs - now) := by
  unfold gitLabRateLimitResetWait
  rw [hparse]
  have : ¬ r ≤ 0 := by omega
  simp only [this, if_false]
  split <;> simp_all

/-- Helper: when the reset header does not parse to a positive
timestamp, the reset wait yields nothing. -/
theorem gitLabRateLimitResetWait_none (resetH : String) (now : Int)
    (h : ¬ ∃ r, goAtoi (goTrim resetH) = some r ∧ 0 < r) :
    gitLabRateLimitResetWait resetH now = none := by
  unfold gitLabRateLimitResetWait
  cases hp : goAtoi (goTrim resetH) with
  | none => rfl
  | some r =>
    have : r ≤ 0 := by
      by_contra hc
      exact h ⟨r, hp, by omega⟩
    simp [this]

/-- C3 (counterexample): the claimed wait `max(1s, reset − now)` is not
what the code computes when the reset instant is within the next second:
with `Ratelimit-Reset: 100` and `now` half a second before it, the code
waits 0.5 s, while the claimed formula gives 1 s. -/
theorem c3_reset_wait_counterexample :
    retryDecision (.httpError 429 "" "100") (10 * goSecondNs) 99500000000 = some 500000000
    ∧ max goSecondNs (100 * goSecondNs - 99500000000) = goSecondNs
    ∧ (500000000 : Int) ≠ goSecondNs := by
  refine ⟨by decide, by decide, by decide⟩

/-- C3 (amended): a 429 error is always retryable, and the wait cascade
is: the `Retry-After` seconds when the header parses positive; otherwise
`reset − now` when the reset header parses to a positive timestamp (with
the 1 s value used only when `reset − now ≤ 0`, not as a general floor);
otherwise the current backoff capped at 30 s. -/
theorem c3_retry429_wait_amended (retryAfterH resetH : String) (backoff now : Int) :
    (∃ w, retryDecision (.httpError 429 retryAfterH resetH) backoff now = some w)
    ∧ (∀ s, goAtoi (goTrim retryAfterH) = some s → 0 < s →
        retryDecision (.httpError 429 retryAfterH resetH) backoff now = some (s * goSecondNs))
    ∧ (∀ r, (¬ ∃ s, goAtoi (goTrim retryAfterH) = some s ∧ 0 < s) →
        goAtoi (goTrim resetH) = some r → 0 < r →
        retryDecision (.httpError 429 retryAfterH resetH) backoff now
          = some (if r * goSecondNs - now ≤ 0 then goSecondNs else r * goSecondNs - now))
    ∧ ((¬ ∃ s, goAtoi (goTrim retryAfterH) = some s ∧ 0 < s) →
       (¬ ∃ r, goAtoi (goTrim resetH) = some r ∧ 0 < r) →
        retryDecision (.httpError 429 retryAfterH resetH) backoff now
          = some (min backoff gitLabMaxBackoff)) := by
  have hdec : retryDecision (.httpError 429 retryAfterH resetH) backoff now
      = some (gitLab429Wait retryAfterH resetH backoff now) := by
    simp [retryDecision]
  refine ⟨⟨_, hdec⟩, ?_, ?_, ?_⟩
  · intro s hs hpos
    rw [hdec]
    unfold gitLab429Wait
    rw [hs]
    simp [hpos]
  · intro r hra hrl hrpos
    rw [hdec]
    unfold gitLab429Wait
    rw [gitLabRateLimitResetWait_of_parse resetH now r hrl hrpos]
    cases hs : goAtoi (goTrim retryAfterH) with
    | none => simp
    | some s =>
      have : ¬ 0 < s := fun hc => hra ⟨s, hs, hc⟩
      simp [this]
  · intro hra hrl
    rw [hdec]
    unfold gitLab429Wait
    rw [gitLabRateLimitResetWait_none resetH now hrl]
    cases hs : goAtoi (goTrim retryAfterH) with
    | none => simp
    | some s =>
      have : ¬ 0 < s := fun hc => hra ⟨s, hs, hc⟩
      simp [this]

/-- C3 witness: with `Retry-After: 7` the wait is exactly 7 s. -/
theorem c3_retry429_wait_amended_witness :
    goAtoi (goTrim "7") = some 7 ∧ (0 : Int) < 7
    ∧ retryDecision (.httpError 429 "7" "") (2 * goSecondNs) 0 = some (7 * goSecondNs) :=
  ⟨by decide, by decide,
    (c3_retry429_wait_amended "7" "" (2 * goSecondNs) 0).2.1 7 (by decide) (by decide)⟩

/-- C4: when the author or assignee fields alone produce the label —
i.e. the derivation reaches `Authored` or `Assigned` — both derivations
return that label at once with no notes and an empty call trace: no
approval-state query, no notes fetch. -/
theorem c4_authored_assigned_short_circuit :
    (∀ (it : GLBasicMergeRequest) (username : String) (userID : Int),
      (matchesGitLabBasicUser it.author username userID = true
        ∨ (gitLabBasicUserListContains it.assignees username userID
            || matchesGitLabBasicUser it.assignee username userID) = true) →
      ∃ label, (label = "Authored" ∨ label = "Assigned")
        ∧ deriveGitLabMergeRequestLabel (some it) username userID = (.ok (label, []), []))
    ∧ (∀ (it : GLIssue) (username : String) (userID : Int),
      (matchesGitLabIssueAuthor it.author username userID = true
        ∨ (gitLabIssueAssigneeListContains it.assignees username userID
            || matchesGitLabIssueAssignee it.assignee username userID) = true) →
      ∃ label, (label = "Authored" ∨ label = "Assigned")
        ∧ deriveGitLabIssueLabel (some it) username userID = (.ok (label, []), [])) := by
  have hMergeAuth : mergeLabelWithPriority "" "Authored" true = "Authored" := by decide
  have hMergeAuthKeep : mergeLabelWithPriority "Authored" "Assigned" true = "Authored" := by decide
  have hMergeAssign : mergeLabelWithPriority "" "Assigned" true = "Assigned" := by decide
  have hMergeAuthI : mergeLabelWithPriority "" "Authored" false = "Authored" := by decide
  have hMergeAuthKeepI : mergeLabelWithPriority "Authored" "Assigned" false = "Authored" := by decide
  have hMergeAssignI : mergeLabelWithPriority "" "Assigned" false = "Assigned" := by decide
  constructor
  · intro it username userID hsig
    by_cases hAuth : matchesGitLabBasicUser it.author username userID = true
    · by_cases hAssign : (gitLabBasicUserListContains it.assignees username userID
          || matchesGitLabBasicUser it.assignee username userID) = true
      · refine ⟨"Authored", Or.inl rfl, ?_⟩
        simp [deriveGitLabMergeRequestLabel, hAuth, hAssign, hMergeAuth, hMergeAuthKeep]
      · refine ⟨"Authored", Or.inl rfl, ?_⟩
        simp [deriveGitLabMergeRequestLabel, hAuth, hAssign, hMergeAuth]
    · have hAssign : (gitLabBasicUserListContains it.assignees username userID
          || matchesGitLabBasicUser it.assignee username userID) = true := by
        rcases hsig with h | h
        · exact absurd h hAuth
        · exact h
      refine ⟨"Assigned", Or.inr rfl, ?_⟩
      simp [deriveGitLabMergeRequestLabel, hAuth, hAssign, hMergeAssign]
  · intro it username userID hsig
    by_cases hAuth : matchesGitLabIssueAuthor it.author username userID = true
    · by_cases hAssign : (gitLabIssueAssigneeListContains it.assignees username userID
          || matchesGitLabIssueAssignee it.assignee username userID) = true
      · refine ⟨"Authored", Or.inl rfl, ?_⟩
        simp [deriveGitLabIssueLabel, hAuth, hAssign, hMergeAuthI, hMergeAuthKeepI]
      · refine ⟨"Authored", Or.inl rfl, ?_⟩
        simp [deriveGitLabIssueLabel, hAuth, hAssign, hMergeAuthI]
    · have hAssign : (gitLabIssueAssigneeListContains it.assignees username userID
          || matchesGitLabIssueAssignee it.assignee username userID) = true := by
        rcases hsig with h | h
        · exact absurd h hAuth
        · exact h
      refine ⟨"Assigned", Or.inr rfl, ?_⟩
      simp [deriveGitLabIssueLabel, hAuth, hAssign, hMergeAssignI]

/-- C4 witness: an authored merge request is labelled `Authored` with no
signal-gathering calls; the approval and notes oracles are set to fail,
so any attempt to consult them would be visible. -/
theorem c4_authored_assigned_short_circuit_witness :
    (matchesGitLabBasicUser (some ⟨42, "me"⟩) "me" 42 = true
      ∨ (gitLabBasicUserListContains [] "me" 42 || matchesGitLabBasicUser none "me" 42) = true)
    ∧ ∃ label, (label = "Authored" ∨ label = "Assigned")
      ∧ deriveGitLabMergeRequestLabel
          (some ⟨1, "t", "d", "opened", some 5, "u", none, some ⟨42, "me"⟩, none, [], [],
            .error "approval endpoint must not be called", .error "notes endpoint must not be called"⟩)
          "me" 42 = (.ok (label, []), []) :=
  ⟨Or.inl (by decide),
    c4_authored_assigned_short_circuit.1
      ⟨1, "t", "d", "opened", some 5, "u", none, some ⟨42, "me"⟩, none, [], [],
        .error "approval endpoint must not be called", .error "notes endpoint must not be called"⟩
      "me" 42 (Or.inl (by decide))⟩

/-- Membership is preserved by any fold whose step preserves it. -/
theorem foldl_mem_preserve {α : Type} (step : List String → α → List String)
    (h : ∀ s a x, x ∈ s → x ∈ step s a) :
    ∀ (l : List α) (s : List String) (x : String), x ∈ s → x ∈ l.foldl step s := by
  intro l
  induction l with
  | nil => intro s x hx; simpa using hx
  | cons a t ih => intro s x hx; exact ih (step s a) x (h s a x hx)

/-- Inserting preserves membership. -/
theorem mem_strSetInsert_of_mem (s : List String) (k x : String) (h : x ∈ s) :
    x ∈ strSetInsert s k := by
  unfold strSetInsert
  split
  · exact h
  · exact List.mem_append_left _ h

/-- Inserting makes the key a member. -/
theorem mem_strSetInsert_self (s : List String) (k : String) : k ∈ strSetInsert s k := by
  unfold strSetInsert
  split
  · next hc => exact List.mem_of_elem_eq_true hc
  · exact List.mem_append_right _ (List.mem_singleton.mpr rfl)

/-- The key of any element ends up in the set fold. -/
theorem foldl_strSetInsert_mem {α : Type} (f : α → String) :
    ∀ (l : List α) (s : List String) (j : α), j ∈ l →
      f j ∈ l.foldl (fun acc i => strSetInsert acc (f i)) s := by
  intro l
  induction l with
  | nil => intro s j hj; cases hj
  | cons a t ih =>
    intro s j hj
    rcases List.mem_cons.mp hj with h | h
    · subst h
      exact foldl_mem_preserve _ (fun s' a' x hx => mem_strSetInsert_of_mem s' (f a') x hx) t _ _
        (mem_strSetInsert_self s (f j))
    · exact ih _ j h

/-- The key of any issue nested somewhere in the activity list ends up
in the linked-key set collected by `filterStandaloneGitLabIssues`. -/
theorem linkedKeys_mem :
    ∀ (activities : List PRActivity) (s : List String) (a : PRActivity) (j : IssueActivity),
      a ∈ activities → j ∈ a.issues →
      gitLabIssueActivityKey j ∈ activities.foldl
        (fun s' a' => a'.issues.foldl
          (fun s'' issue => strSetInsert s'' (gitLabIssueActivityKey issue)) s')
        s := by
  intro activities
  induction activities with
  | nil => intro s a j ha _; cases ha
  | cons b t ih =>
    intro s a j ha hj
    rcases List.mem_cons.mp ha with h | h
    · subst h
      refine foldl_mem_preserve _ ?_ t _ _ ?_
      · intro s₀ a' x hx
        exact foldl_mem_preserve _ (fun s₁ i x' hx' => mem_strSetInsert_of_mem s₁ _ x' hx')
          a'.issues s₀ x hx
      · exact foldl_strSetInsert_mem gitLabIssueActivityKey a.issues s j hj
    · exact ih _ a j h hj

/-- C5: an issue appearing in the nested-issue list of at least one
request is absent from the standalone-issue collection (whatever other
requests exist), and the same issue may be nested under more than one
request simultaneously, as witnessed by a two-request linking in which
both requests nest the same issue. -/
theorem c5_nested_excluded_from_standalone :
    (∀ (activities : List PRActivity) (issueActivities : List IssueActivity)
        (a : PRActivity) (j s : IssueActivity),
      a ∈ activities → j ∈ a.issues →
      s ∈ filterStandaloneGitLabIssues activities issueActivities →
      gitLabIssueActivityKey s ≠ gitLabIssueActivityKey j)
    ∧ (nestGitLabIssues
        [⟨"Authored", "group", "repo", ⟨1, "", "", "open", some 3, "", "", false⟩, some 3, false, []⟩,
         ⟨"Assigned", "group", "repo", ⟨2, "", "", "open", some 4, "", "", false⟩, some 4, false, []⟩]
        [⟨"Commented", "group", "repo", ⟨9, "", "", "open", some 2, "", ""⟩, some 2, false⟩]
        [("group/repo#!1", ["group/repo##9"]), ("group/repo#!2", ["group/repo##9"])]).map
          (fun a => a.issues)
      = [[⟨"Commented", "group", "repo", ⟨9, "", "", "open", some 2, "", ""⟩, some 2, false⟩],
         [⟨"Commented", "group", "repo", ⟨9, "", "", "open", some 2, "", ""⟩, some 2, false⟩]] := by
  constructor
  · intro activities issueActivities a j s ha hj hs heq
    have hmem := linkedKeys_mem activities [] a j ha hj
    unfold filterStandaloneGitLabIssues at hs
    rw [List.mem_filter] at hs
    have hns := hs.2
    rw [heq] at hns
    simp only [Bool.not_eq_true'] at hns
    have : gitLabIssueActivityKey j ∈ (activities.foldl
        (fun s' a' => a'.issues.foldl
          (fun s'' issue => strSetInsert s'' (gitLabIssueActivityKey issue)) s') []) := hmem
    rw [← List.elem_iff] at this
    simp [List.contains] at hns
    exact absurd this (by simp [hns])
  · decide

/-- C5 witness: the exclusion statement applied to a concrete linking
result in which one issue is nested and a second, unrelated issue is
standalone. -/
theorem c5_nested_excluded_from_standalone_witness :
    gitLabIssueActivityKey ⟨"Mentioned", "group", "repo", ⟨8, "", "", "open", some 1, "", ""⟩, some 1, false⟩
      ≠ gitLabIssueActivityKey ⟨"Commented", "group", "repo", ⟨9, "", "", "open", some 2, "", ""⟩, some 2, false⟩ :=
  c5_nested_excluded_from_standalone.1
    [⟨"Authored", "group", "repo", ⟨1, "", "", "open", some 3, "", "", false⟩, some 3, false,
      [⟨"Commented", "group", "repo", ⟨9, "", "", "open", some 2, "", ""⟩, some 2, false⟩]⟩]
    [⟨"Mentioned", "group", "repo", ⟨8, "", "", "open", some 1, "", ""⟩, some 1, false⟩,
      ⟨"Commented", "group", "repo", ⟨9, "", "", "open", some 2, "", ""⟩, some 2, false⟩]
    ⟨"Authored", "group", "repo", ⟨1, "", "", "open", some 3, "", "", false⟩, some 3, false,
      [⟨"Commented", "group", "repo", ⟨9, "", "", "open", some 2, "", ""⟩, some 2, false⟩]⟩
    ⟨"Commented", "group", "repo", ⟨9, "", "", "open", some 2, "", ""⟩, some 2, false⟩
    ⟨"Mentioned", "group", "repo", ⟨8, "", "", "open", some 1, "", ""⟩, some 1, false⟩
    (by decide) (by decide) (by decide)

/-- C6 (counterexample): extraction on the claimed text also yields
`group/sub/repo#56` — the project-relative pattern matches the
issues fragment embedded inside the absolute URL — so the result is not
exactly the four claimed identities. -/
theorem c6_extraction_counterexample :
    "group/sub/repo##56" ∈ gitLabIssueReferenceKeysFromText
      "Fixes #12 and group/sub/repo#34 and https://host/group/other/-/issues/56 and /-/issues/78"
      "group/sub/repo"
    ∧ "group/sub/repo##56" ∉
      (["group/sub/repo##12", "group/sub/repo##34", "group/other##56", "group/sub/repo##78"] : List String) := by
  set_option maxRecDepth 4000 in refine ⟨by decide, by decide⟩

/-- C6 (amended): extraction on that text yields exactly five
identities: the four claimed ones plus `group/sub/repo#56`, which the
project-relative pattern extracts from the fragment inside the absolute
URL (listed in the code's pattern order: URL, qualified, relative,
bare). -/
theorem c6_extraction_amended :
    gitLabIssueReferenceKeysFromText
      "Fixes #12 and group/sub/repo#34 and https://host/group/other/-/issues/56 and /-/issues/78"
      "group/sub/repo"
    = ["group/other##56", "group/sub/repo##34", "group/sub/repo##56",
       "group/sub/repo##78", "group/sub/repo##12"] := by
  set_option maxRecDepth 4000 in decide

/-- Splitting concatenations at the first occurrence of a separator
absent from both left parts. -/
theorem append_cons_inj {c : Char} :
    ∀ {l₁ l₂ t₁ t₂ : List Char}, l₁ ++ c :: t₁ = l₂ ++ c :: t₂ →
      c ∉ l₁ → c ∉ l₂ → l₁ = l₂ ∧ t₁ = t₂ := by
  intro l₁
  induction l₁ with
  | nil =>
    intro l₂ t₁ t₂ h h1 h2
    cases l₂ with
    | nil => simpa using h
    | cons b bt =>
      simp only [List.nil_append, List.cons_append, List.cons.injEq] at h
      exact absurd (h.1 ▸ List.mem_cons_self b bt) (h.1 ▸ h2)
  | cons a t ih =>
    intro l₂ t₁ t₂ h h1 h2
    cases l₂ with
    | nil =>
      simp only [List.nil_append, List.cons_append, List.cons.injEq] at h
      exact absurd (h.1 ▸ List.mem_cons_self a t) (fun hc => h1 (h.1 ▸ hc))
    | cons b bt =>
      simp only [List.cons_append, List.cons.injEq] at h
      have hrec := ih h.2 (fun hc => h1 (List.mem_cons_of_mem a hc))
        (fun hc => h2 (List.mem_cons_of_mem b hc))
      exact ⟨by rw [h.1, hrec.1], hrec.2⟩

/-- Character-list view of a GitHub item key. -/
theorem buildGitHubItemKey_data (o r : String) (n : Int) :
    (buildGitHubItemKey o r n).data
      = (o.data ++ '/' :: r.data) ++ '#' :: (toString n).data := by
  show (o ++ "/" ++ r ++ "#" ++ toString n).data = _
  rw [String.data_append, String.data_append, String.data_append, String.data_append]
  simp [List.append_assoc]

/-- GitHub item keys are injective in owner and repo as long as the
owner contains no slash and neither side contains a hash — which is
true of every real GitHub owner and repository name. -/
theorem buildGitHubItemKey_inj (o₁ r₁ o₂ r₂ : String) (n₁ n₂ : Int)
    (ho₁ : '/' ∉ o₁.data ∧ '#' ∉ o₁.data) (hr₁ : '#' ∉ r₁.data)
    (ho₂ : '/' ∉ o₂.data ∧ '#' ∉ o₂.data) (hr₂ : '#' ∉ r₂.data)
    (h : buildGitHubItemKey o₁ r₁ n₁ = buildGitHubItemKey o₂ r₂ n₂) :
    o₁ = o₂ ∧ r₁ = r₂ := by
  have hd := congrArg String.data h
  rw [buildGitHubItemKey_data, buildGitHubItemKey_data] at hd
  have hsplit1 := append_cons_inj hd
    (by
      intro hc
      rcases List.mem_append.mp hc with hc' | hc'
      · exact ho₁.2 hc'
      · rcases List.mem_cons.mp hc' with hc'' | hc''
        · cases hc''
        · exact hr₁ hc'')
    (by
      intro hc
      rcases List.mem_append.mp hc with hc' | hc'
      · exact ho₂.2 hc'
      · rcases List.mem_cons.mp hc' with hc'' | hc''
        · cases hc''
        · exact hr₂ hc'')
  have hsplit2 := append_cons_inj hsplit1.1 ho₁.1 ho₂.1
  exact ⟨String.ext hsplit2.1, String.ext hsplit2.2⟩

/-- Lookup after a cons of the association list. -/
theorem alLookup_cons {α : Type} (k' : String) (v' : α) (m : List (String × α)) (k : String) :
    alLookup ((k', v') :: m) k = if k' == k then some v' else alLookup m k := by
  by_cases h : k' == k <;> simp [alLookup, List.find?_cons, h]

/-- A successful lookup in an index built by folding `alInsert` over a
list returns an element of that list whose key matches, or falls back to
the initial map. -/
theorem lookup_foldl_alInsert {α : Type} (f : α → String) :
    ∀ (l : List α) (m : List (String × α)) (k : String) (v : α),
      alLookup (l.foldl (fun m' i => alInsert m' (f i) i) m) k = some v →
      (v ∈ l ∧ f v = k) ∨ alLookup m k = some v := by
  intro l
  induction l with
  | nil => intro m k v h; exact Or.inr h
  | cons i t ih =>
    intro m k v h
    rcases ih (alInsert m (f i) i) k v h with hmem | hbase
    · exact Or.inl ⟨List.mem_cons_of_mem i hmem.1, hmem.2⟩
    · rw [alInsert, alLookup_cons] at hbase
      by_cases hk : f i == k
      · rw [if_pos hk] at hbase
        have hv : v = i := by injection hbase with h'; exact h'.symm
        subst hv
        exact Or.inl ⟨List.mem_cons_self v t, eq_of_beq hk⟩
      · rw [if_neg hk] at hbase
        exact Or.inr hbase

/-- Elements of a fold whose step either keeps the accumulator or
appends an element satisfying `P` come from the accumulator or from a
list element. -/
theorem mem_foldl_of_step {α β : Type} (step : List β → α → List β) (P : α → β → Prop)
    (hstep : ∀ acc x j, j ∈ step acc x → j ∈ acc ∨ P x j) :
    ∀ (l : List α) (acc : List β) (j : β),
      j ∈ l.foldl step acc → j ∈ acc ∨ ∃ x, x ∈ l ∧ P x j := by
  intro l
  induction l with
  | nil => intro acc j h; exact Or.inl (by simpa using h)
  | cons x t ih =>
    intro acc j h
    rcases ih (step acc x) j h with hacc | ⟨x', hx', hP⟩
    · rcases hstep acc x j hacc with h' | h'
      · exact Or.inl h'
      · exact Or.inr ⟨x, List.mem_cons_self x t, h'⟩
    · exact Or.inr ⟨x', List.mem_cons_of_mem x hx', hP⟩

/-- Membership through the descending-update-time insertion. -/
theorem mem_insertIssueByUpdatedDesc (i x : IssueActivity) :
    ∀ l, i ∈ insertIssueByUpdatedDesc x l ↔ i = x ∨ i ∈ l := by
  intro l
  induction l with
  | nil => simp [insertIssueByUpdatedDesc]
  | cons j t ih =>
    unfold insertIssueByUpdatedDesc
    split
    · simp
    · rw [List.mem_cons, ih, List.mem_cons]
      tauto

/-- Sorting nested issues does not change membership. -/
theorem mem_sortIssuesByUpdatedDesc (i : IssueActivity) :
    ∀ l, i ∈ sortIssuesByUpdatedDesc l ↔ i ∈ l := by
  intro l
  induction l with
  | nil => simp [sortIssuesByUpdatedDesc]
  | cons j t ih =>
    unfold sortIssuesByUpdatedDesc at *
    rw [List.foldr_cons, mem_insertIssueByUpdatedDesc, ih, List.mem_cons]

/-- A positive cross-reference answer implies both repository guards. -/
theorem areGitHubCrossReferenced_guards (f : String → Int → String → String → Bool)
    (pr : PRActivity) (is₀ : IssueActivity) (cs : List GHReviewComment)
    (h : areGitHubCrossReferenced f pr is₀ cs = true) :
    goEqualFold (goTrim pr.owner) (goTrim is₀.owner) = true
      ∧ goEqualFold (goTrim pr.repo) (goTrim is₀.repo) = true := by
  unfold areGitHubCrossReferenced at h
  by_cases h1 : goEqualFold (goTrim pr.owner) (goTrim is₀.owner) = true
  · by_cases h2 : goEqualFold (goTrim pr.repo) (goTrim is₀.repo) = true
    · exact ⟨h1, h2⟩
    · simp [h1, h2] at h
  · simp [h1] at h

/-- Case-insensitive equality is symmetric. -/
theorem goEqualFold_symm (a b : String) (h : goEqualFold a b = true) :
    goEqualFold b a = true := by
  simp only [goEqualFold, beq_iff_eq] at h ⊢
  exact h.symm

/-- C10: on the GitHub path, every issue nested under a pull request by
`nestGitHubIssues` has the same owner and repo as the pull request
(compared case-insensitively after trimming), for every text matcher —
so a pull request never nests an issue from a different repository, no
matter what its body references.  The hypothesis only states that
owner/repo names contain no `/` (owner) or `#` (both), which is true of
every real GitHub owner and repository name. -/
theorem c10_github_nesting_same_repo_only
    (mentionsNumber : String → Int → String → String → Bool)
    (activities : List PRActivity) (issueActivities : List IssueActivity)
    (prReviewComments : List (String × List GHReviewComment))
    (hwf : ∀ i ∈ issueActivities, ('/' ∉ i.owner.data ∧ '#' ∉ i.owner.data) ∧ '#' ∉ i.repo.data) :
    ∀ a ∈ nestGitHubIssues mentionsNumber activities issueActivities prReviewComments,
      ∀ j ∈ a.issues,
        goEqualFold (goTrim j.owner) (goTrim a.owner) = true
          ∧ goEqualFold (goTrim j.repo) (goTrim a.repo) = true := by
  intro a ha j hj
  unfold nestGitHubIssues at ha
  rw [List.mem_map] at ha
  obtain ⟨a₀, ha₀, rfl⟩ := ha
  dsimp only at hj ⊢
  rw [mem_sortIssuesByUpdatedDesc] at hj
  have hstep := mem_foldl_of_step _
    (fun issue j' =>
      areGitHubCrossReferenced mentionsNumber { a₀ with issues := [] } issue
        ((alLookup prReviewComments (buildGitHubItemKey a₀.owner a₀.repo a₀.mr.number)).getD []) = true
      ∧ alLookup
          (issueActivities.foldl (fun m i =>
            alInsert m (buildGitHubItemKey i.owner i.repo i.issue.number) i) [])
          (buildGitHubItemKey issue.owner issue.repo issue.issue.number) = some j')
    (by
      intro acc x j' hmem
      split at hmem
      · next hc =>
          split at hmem
          · next y hl =>
              rcases List.mem_append.mp hmem with h' | h'
              · exact Or.inl h'
              · have : j' = y := by simpa using h'
                exact Or.inr ⟨hc, this ▸ hl⟩
          · exact Or.inl hmem
      · exact Or.inl hmem)
    issueActivities [] j hj
  rcases hstep with hnil | ⟨issue, hissue, hp, hg⟩
  · cases hnil
  · have hlook := lookup_foldl_alInsert
      (fun i => buildGitHubItemKey i.owner i.repo i.issue.number) issueActivities [] _ j hg
    rcases hlook with ⟨hjmem, hkeq⟩ | hbase
    · have hwfj := hwf j hjmem
      have hwfi := hwf issue hissue
      have hinj := buildGitHubItemKey_inj j.owner j.repo issue.owner issue.repo
        j.issue.number issue.issue.number hwfj.1 hwfj.2 hwfi.1 hwfi.2 hkeq
      have hguards := areGitHubCrossReferenced_guards mentionsNumber
        { a₀ with issues := [] } issue _ hp
      refine ⟨?_, ?_⟩
      · rw [hinj.1]
        exact goEqualFold_symm _ _ hguards.1
      · rw [hinj.2]
        exact goEqualFold_symm _ _ hguards.2
    · simp [alLookup] at hbase

/-- C10 witness: a concrete nesting in which the matcher answers yes for
everything still only nests the same-repository issue, with the guards
holding on the nested pair. -/
theorem c10_github_nesting_same_repo_only_witness :
    (∀ i ∈ ([⟨"Commented", "octo", "hello", ⟨9, "", "", "open", some 2, "", ""⟩, some 2, false⟩] :
        List IssueActivity),
      ('/' ∉ i.owner.data ∧ '#' ∉ i.owner.data) ∧ '#' ∉ i.repo.data)
    ∧ (goEqualFold (goTrim "octo") (goTrim "octo") = true
        ∧ goEqualFold (goTrim "hello") (goTrim "hello") = true) :=
  ⟨by decide,
    c10_github_nesting_same_repo_only (fun _ _ _ _ => true)
      [⟨"Authored", "octo", "hello", ⟨1, "", "Fixes #9", "open", some 5, "", "", false⟩, some 5, false, []⟩]
      [⟨"Commented", "octo", "hello", ⟨9, "", "", "open", some 2, "", ""⟩, some 2, false⟩]
      [] (by decide)
      ⟨"Authored", "octo", "hello", ⟨1, "", "Fixes #9", "open", some 5, "", "", false⟩, some 5, false,
        [⟨"Commented", "octo", "hello", ⟨9, "", "", "open", some 2, "", ""⟩, some 2, false⟩]⟩
      (by decide)
      ⟨"Commented", "octo", "hello", ⟨9, "", "", "open", some 2, "", ""⟩, some 2, false⟩
      (by decide)⟩

/-- Failure counts add over concatenated traces. -/
theorem countSaveFailures_append (oracle : GLSaveOracle) (t₁ t₂ : List GLSaveCall) :
    countSaveFailures oracle (t₁ ++ t₂) = countSaveFailures oracle t₁ + countSaveFailures oracle t₂ := by
  simp [countSaveFailures, List.filter_append]

/-- The note-persist loop fails at most once, and exactly when its
success flag is false. -/
theorem persistGitLabNotesLoop_count (oracle : GLSaveOracle) (p t : String) (i : Int) :
    ∀ notes, countSaveFailures oracle (persistGitLabNotesLoop oracle p t i notes).2
      = (if (persistGitLabNotesLoop oracle p t i notes).1 then 0 else 1) := by
  intro notes
  induction notes with
  | nil => simp [persistGitLabNotesLoop, countSaveFailures]
  | cons n rest ih =>
    cases n with
    | none => simpa [persistGitLabNotesLoop] using ih
    | some note =>
      simp only [persistGitLabNotesLoop]
      by_cases hc : oracle (GLSaveCall.noteSave p t i note.id) = true
      · simp only [hc, if_true]
        simpa [countSaveFailures, hc] using ih
      · simp only [hc, if_false]
        simp [countSaveFailures, List.filter, hc]

/-- Same property for `persistGitLabNotes`. -/
theorem persistGitLabNotes_count (dbPresent : Bool) (oracle : GLSaveOracle)
    (p t : String) (i : Int) (notes : List (Option GLNote)) :
    countSaveFailures oracle (persistGitLabNotes dbPresent oracle p t i notes).2
      = (if (persistGitLabNotes dbPresent oracle p t i notes).1 then 0 else 1) := by
  unfold persistGitLabNotes
  split
  · simp [countSaveFailures]
  · exact persistGitLabNotesLoop_count oracle p t i notes

/-- The abort status and value accumulator of the merge-request loop do
not depend on the cache-write oracle. -/
theorem processGitLabMergeRequests_value (dbPresent : Bool) (o₁ o₂ : GLSaveOracle)
    (u : String) (uid cut : Int) (p : GLProjectEnv) :
    ∀ (items : List GLBasicMergeRequest) (acc : GLFetchAccum),
      (processGitLabMergeRequests dbPresent o₁ u uid cut p items acc).1
        = (processGitLabMergeRequests dbPresent o₂ u uid cut p items acc).1
      ∧ (processGitLabMergeRequests dbPresent o₁ u uid cut p items acc).2.1
        = (processGitLabMergeRequests dbPresent o₂ u uid cut p items acc).2.1 := by
  intro items
  induction items with
  | nil => intro acc; simp [processGitLabMergeRequests]
  | cons item rest ih =>
    intro acc
    simp only [processGitLabMergeRequests]
    by_cases hseen : acc.seenMergeRequests.contains
        (buildGitLabDedupKey p.pathWithNamespace "mr" item.iid) = true
    · simp only [hseen, if_true]
      exact ih acc
    · simp only [hseen, Bool.false_eq_true, if_false]
      split
      · exact ih _
      · rcases hd : deriveGitLabMergeRequestLabel (some item) u uid with ⟨exr, tr⟩
        cases exr with
        | error e => simp [hd]
        | ok lp =>
          rcases lp with ⟨label, notes⟩
          simp only [hd]
          exact ih _

/-- The merge-request loop counts exactly its failed write attempts. -/
theorem processGitLabMergeRequests_count (dbPresent : Bool) (o : GLSaveOracle)
    (u : String) (uid cut : Int) (p : GLProjectEnv) :
    ∀ (items : List GLBasicMergeRequest) (acc : GLFetchAccum),
      (processGitLabMergeRequests dbPresent o u uid cut p items acc).2.2.1
        = countSaveFailures o (processGitLabMergeRequests dbPresent o u uid cut p items acc).2.2.2 := by
  intro items
  induction items with
  | nil => intro acc; simp [processGitLabMergeRequests, countSaveFailures]
  | cons item rest ih =>
    intro acc
    simp only [processGitLabMergeRequests]
    by_cases hseen : acc.seenMergeRequests.contains
        (buildGitLabDedupKey p.pathWithNamespace "mr" item.iid) = true
    · simp only [hseen, if_true]
      exact ih acc
    · simp only [hseen, Bool.false_eq_true, if_false]
      split
      · exact ih _
      · rcases hd : deriveGitLabMergeRequestLabel (some item) u uid with ⟨exr, tr⟩
        cases exr with
        | error e => simp [hd, countSaveFailures]
        | ok lp =>
          rcases lp with ⟨label, notes⟩
          simp only [hd]
          rw [countSaveFailures_append, countSaveFailures_append]
          rw [persistGitLabNotes_count, ← ih]
          by_cases hdb : dbPresent = true
          · simp only [hdb, if_true]
            by_cases hc : o (GLSaveCall.mrSave p.pathWithNamespace
                (toMergeRequestModelFromGitLab (some item)).number) = true
            · simp [countSaveFailures, hc]
            · simp [countSaveFailures, List.filter, hc]
          · simp only [hdb, Bool.false_eq_true, if_false]
            simp [countSaveFailures]

/-- The abort status and value accumulator of the issue loop do not
depend on the cache-write oracle. -/
theorem processGitLabIssues_value (dbPresent : Bool) (o₁ o₂ : GLSaveOracle)
    (u : String) (uid cut : Int) (p : GLProjectEnv) :
    ∀ (items : List GLIssue) (acc : GLFetchAccum),
      (processGitLabIssues dbPresent o₁ u uid cut p items acc).1
        = (processGitLabIssues dbPresent o₂ u uid cut p items acc).1
      ∧ (processGitLabIssues dbPresent o₁ u uid cut p items acc).2.1
        = (processGitLabIssues dbPresent o₂ u uid cut p items acc).2.1 := by
  intro items
  induction items with
  | nil => intro acc; simp [processGitLabIssues]
  | cons item rest ih =>
    intro acc
    simp only [processGitLabIssues]
    by_cases hseen : acc.seenIssues.contains
        (buildGitLabDedupKey p.pathWithNamespace "issue" item.iid) = true
    · simp only [hseen, if_true]
      exact ih acc
    · simp only [hseen, Bool.false_eq_true, if_false]
      split
      · exact ih _
      · rcases hd : deriveGitLabIssueLabel (some item) u uid with ⟨exr, tr⟩
        cases exr with
        | error e => simp [hd]
        | ok lp =>
          rcases lp with ⟨label, notes⟩
          simp only [hd]
          exact ih _

/-- The issue loop counts exactly its failed write attempts. -/
theorem processGitLabIssues_count (dbPresent : Bool) (o : GLSaveOracle)
    (u : String) (uid cut : Int) (p : GLProjectEnv) :
    ∀ (items : List GLIssue) (acc : GLFetchAccum),
      (processGitLabIssues dbPresent o u uid cut p items acc).2.2.1
        = countSaveFailures o (processGitLabIssues dbPresent o u uid cut p items acc).2.2.2 := by
  intro items
  induction items with
  | nil => intro acc; simp [processGitLabIssues, countSaveFailures]
  | cons item rest ih =>
    intro acc
    simp only [processGitLabIssues]
    by_cases hseen : acc.seenIssues.contains
        (buildGitLabDedupKey p.pathWithNamespace "issue" item.iid) = true
    · simp only [hseen, if_true]
      exact ih acc
    · simp only [hseen, Bool.false_eq_true, if_false]
      split
      · exact ih _
      · rcases hd : deriveGitLabIssueLabel (some item) u uid with ⟨exr, tr⟩
        cases exr with
        | error e => simp [hd, countSaveFailures]
        | ok lp =>
          rcases lp with ⟨label, notes⟩
          simp only [hd]
          rw [countSaveFailures_append, countSaveFailures_append]
          rw [persistGitLabNotes_count, ← ih]
          by_cases hdb : dbPresent = true
          · simp only [hdb, if_true]
            by_cases hc : o (GLSaveCall.issueSave p.pathWithNamespace
                (toIssueModelFromGitLab (some item)).number) = true
            · simp [countSaveFailures, hc]
            · simp [countSaveFailures, List.filter, hc]
          · simp only [hdb, Bool.false_eq_true, if_false]
            simp [countSaveFailures]

/-- The abort status and value accumulator of the project loop do not
depend on the cache-write oracle. -/
theorem processGitLabProjects_value (dbPresent : Bool) (o₁ o₂ : GLSaveOracle)
    (u : String) (uid cut : Int) :
    ∀ (projs : List GLProjectEnv) (acc : GLFetchAccum),
      (processGitLabProjects dbPresent o₁ u uid cut projs acc).1
        = (processGitLabProjects dbPresent o₂ u uid cut projs acc).1
      ∧ (processGitLabProjects dbPresent o₁ u uid cut projs acc).2.1
        = (processGitLabProjects dbPresent o₂ u uid cut projs acc).2.1 := by
  intro projs
  induction projs with
  | nil => intro acc; simp [processGitLabProjects]
  | cons p rest ih =>
    intro acc
    simp only [processGitLabProjects]
    cases hmr : p.mergeRequests with
    | error e => simp
    | ok mrs =>
      dsimp only
      obtain ⟨hm1, hm2⟩ := processGitLabMergeRequests_value dbPresent o₁ o₂ u uid cut p mrs acc
      rw [← hm1, ← hm2]
      cases hr1 : (processGitLabMergeRequests dbPresent o₁ u uid cut p mrs acc).1 with
      | some e => simp
      | none =>
        cases his : p.issues with
        | error e => simp
        | ok iss =>
          dsimp only
          obtain ⟨hi1, hi2⟩ := processGitLabIssues_value dbPresent o₁ o₂ u uid cut p iss
            (processGitLabMergeRequests dbPresent o₁ u uid cut p mrs acc).2.1
          rw [← hi1, ← hi2]
          cases hr2 : (processGitLabIssues dbPresent o₁ u uid cut p iss
              (processGitLabMergeRequests dbPresent o₁ u uid cut p mrs acc).2.1).1 with
          | some e => simp
          | none =>
            obtain ⟨hp1, hp2⟩ := ih (processGitLabIssues dbPresent o₁ u uid cut p iss
              (processGitLabMergeRequests dbPresent o₁ u uid cut p mrs acc).2.1).2.1
            rw [← hp1, ← hp2]
            simp

/-- The project loop counts exactly its failed write attempts. -/
theorem processGitLabProjects_count (dbPresent : Bool) (o : GLSaveOracle)
    (u : String) (uid cut : Int) :
    ∀ (projs : List GLProjectEnv) (acc : GLFetchAccum),
      (processGitLabProjects dbPresent o u uid cut projs acc).2.2.1
        = countSaveFailures o (processGitLabProjects dbPresent o u uid cut projs acc).2.2.2 := by
  intro projs
  induction projs with
  | nil => intro acc; simp [processGitLabProjects, countSaveFailures]
  | cons p rest ih =>
    intro acc
    simp only [processGitLabProjects]
    cases hmr : p.mergeRequests with
    | error e => simp [countSaveFailures]
    | ok mrs =>
      dsimp only
      cases hr1 : (processGitLabMergeRequests dbPresent o u uid cut p mrs acc).1 with
      | some e =>
        dsimp only
        exact processGitLabMergeRequests_count dbPresent o u uid cut p mrs acc
      | none =>
        cases his : p.issues with
        | error e =>
          dsimp only
          exact processGitLabMergeRequests_count dbPresent o u uid cut p mrs acc
        | ok iss =>
          dsimp only
          cases hr2 : (processGitLabIssues dbPresent o u uid cut p iss
              (processGitLabMergeRequests dbPresent o u uid cut p mrs acc).2.1).1 with
          | some e =>
            dsimp only
            rw [countSaveFailures_append, processGitLabMergeRequests_count,
              processGitLabIssues_count]
          | none =>
            dsimp only
            rw [countSaveFailures_append, countSaveFailures_append,
              processGitLabMergeRequests_count, processGitLabIssues_count, ih]

/-- The linked-key map and notes map built by the linking loop do not
depend on the cache-write oracle. -/
theorem linkGitLabOnlineLoop_value (env : GLFetchEnv) (dbPresent : Bool) (o₁ o₂ : GLSaveOracle)
    (idmap : List (String × Int)) :
    ∀ (acts : List PRActivity) (m : List (String × List String))
        (notesMap : List (String × List (Option GLNote))),
      (linkGitLabOnlineLoop env dbPresent o₁ idmap acts m notesMap).1
        = (linkGitLabOnlineLoop env dbPresent o₂ idmap acts m notesMap).1
      ∧ (linkGitLabOnlineLoop env dbPresent o₁ idmap acts m notesMap).2.1
        = (linkGitLabOnlineLoop env dbPresent o₂ idmap acts m notesMap).2.1 := by
  intro acts
  induction acts with
  | nil => intro m notesMap; simp [linkGitLabOnlineLoop]
  | cons a rest ih =>
    intro m notesMap
    simp only [linkGitLabOnlineLoop]
    cases hid : alLookup idmap
        (normalizeProjectPathWithNamespace (gitLabProjectPath a.owner a.repo)) with
    | none => exact ih m notesMap
    | some pid =>
      try dsimp only
      cases hce : env.closedIssuesEndpoint pid a.mr.number with
      | ok closed =>
        try dsimp only
        exact ih _ notesMap
      | error e =>
        try dsimp only
        by_cases hb : (gitLabIssueReferenceKeysFromText a.mr.body
            (normalizeProjectPathWithNamespace (gitLabProjectPath a.owner a.repo))).isEmpty = true
        · simp only [hb, if_true]
          by_cases hcach : ((alLookup notesMap (buildGitLabMergeRequestKey
              (normalizeProjectPathWithNamespace (gitLabProjectPath a.owner a.repo))
              a.mr.number)).getD []).isEmpty = true
          · simp only [hcach, if_true]
            cases hne : env.mrNotesEndpoint pid a.mr.number with
            | ok notes =>
              try dsimp only
              exact ⟨(ih _ _).1, (ih _ _).2⟩
            | error e' =>
              try dsimp only
              exact ih _ _
          · simp only [hcach, Bool.false_eq_true, if_false]
            try dsimp only
            exact ih _ _
        · simp only [hb, Bool.false_eq_true, if_false]
          try dsimp only
          exact ih _ _

/-- The linking loop counts exactly its failed write attempts. -/
theorem linkGitLabOnlineLoop_count (env : GLFetchEnv) (dbPresent : Bool) (o : GLSaveOracle)
    (idmap : List (String × Int)) :
    ∀ (acts : List PRActivity) (m : List (String × List String))
        (notesMap : List (String × List (Option GLNote))),
      (linkGitLabOnlineLoop env dbPresent o idmap acts m notesMap).2.2.1
        = countSaveFailures o (linkGitLabOnlineLoop env dbPresent o idmap acts m notesMap).2.2.2 := by
  intro acts
  induction acts with
  | nil => intro m notesMap; simp [linkGitLabOnlineLoop, countSaveFailures]
  | cons a rest ih =>
    intro m notesMap
    simp only [linkGitLabOnlineLoop]
    cases hid : alLookup idmap
        (normalizeProjectPathWithNamespace (gitLabProjectPath a.owner a.repo)) with
    | none => exact ih m notesMap
    | some pid =>
      try dsimp only
      cases hce : env.closedIssuesEndpoint pid a.mr.number with
      | ok closed =>
        try dsimp only
        exact ih _ notesMap
      | error e =>
        try dsimp only
        by_cases hb : (gitLabIssueReferenceKeysFromText a.mr.body
            (normalizeProjectPathWithNamespace (gitLabProjectPath a.owner a.repo))).isEmpty = true
        · simp only [hb, if_true]
          by_cases hcach : ((alLookup notesMap (buildGitLabMergeRequestKey
              (normalizeProjectPathWithNamespace (gitLabProjectPath a.owner a.repo))
              a.mr.number)).getD []).isEmpty = true
          · simp only [hcach, if_true]
            cases hne : env.mrNotesEndpoint pid a.mr.number with
            | ok notes =>
              try dsimp only
              rw [countSaveFailures_append, persistGitLabNotes_count, ← ih]
            | error e' =>
              try dsimp only
              simp only [List.nil_append, Nat.zero_add]
              exact ih _ _
          · simp only [hcach, Bool.false_eq_true, if_false]
            try dsimp only
            simp only [List.nil_append, Nat.zero_add]
            exact ih _ _
        · simp only [hb, Bool.false_eq_true, if_false]
          try dsimp only
          exact ih _ _

/-- C9: cache-write failures are invisible in the fetch result — the
returned outcome (error or collections, with every item that an
all-successful cache would contain) is the same for every write-outcome
oracle — and the database-error counter equals exactly the number of
failed write attempts. -/
theorem c9_best_effort_persistence :
    (∀ (env : GLFetchEnv) (dbPresent : Bool) (o₁ o₂ : GLSaveOracle),
      (fetchGitLabProjectActivities env dbPresent o₁).1
        = (fetchGitLabProjectActivities env dbPresent o₂).1)
    ∧ (∀ (env : GLFetchEnv) (dbPresent : Bool) (o : GLSaveOracle),
      (fetchGitLabProjectActivities env dbPresent o).2.1
        = countSaveFailures o (fetchGitLabProjectActivities env dbPresent o).2.2) := by
  constructor
  · intro env dbPresent o₁ o₂
    unfold fetchGitLabProjectActivities
    cases hpr : env.projects with
    | error e => rfl
    | ok projects =>
      try dsimp only
      by_cases hu : goTrim env.currentUsername = ""
      · simp only [hu, if_true]
      · simp only [hu, if_false]
        by_cases hempty : projects.isEmpty = true
        · simp only [hempty, if_true]
        · simp only [hempty, Bool.false_eq_true, if_false]
          try dsimp only
          obtain ⟨hp1, hp2⟩ := processGitLabProjects_value dbPresent o₁ o₂
            env.currentUsername env.currentUserID env.cutoff projects ⟨[], [], [], [], []⟩
          rw [← hp1, ← hp2]
          cases hr : (processGitLabProjects dbPresent o₁ env.currentUsername env.currentUserID
              env.cutoff projects ⟨[], [], [], [], []⟩).1 with
          | some e => rfl
          | none =>
            try dsimp only
            unfold linkGitLabCrossReferencesOnline
            dsimp only
            obtain ⟨hl1, _⟩ := linkGitLabOnlineLoop_value env dbPresent o₁ o₂
              (projects.foldl (fun m p =>
                alInsert m (normalizeProjectPathWithNamespace p.pathWithNamespace) p.id) [])
              (processGitLabProjects dbPresent o₁ env.currentUsername env.currentUserID
                env.cutoff projects ⟨[], [], [], [], []⟩).2.1.activities
              []
              (processGitLabProjects dbPresent o₁ env.currentUsername env.currentUserID
                env.cutoff projects ⟨[], [], [], [], []⟩).2.1.mrNotesByKey
            rw [hl1]
  · intro env dbPresent o
    unfold fetchGitLabProjectActivities
    cases hpr : env.projects with
    | error e => simp [countSaveFailures]
    | ok projects =>
      try dsimp only
      by_cases hu : goTrim env.currentUsername = ""
      · simp [hu, countSaveFailures]
      · simp only [hu, if_false]
        by_cases hempty : projects.isEmpty = true
        · simp [hempty, countSaveFailures]
        · simp only [hempty, Bool.false_eq_true, if_false]
          try dsimp only
          cases hr : (processGitLabProjects dbPresent o env.currentUsername env.currentUserID
              env.cutoff projects ⟨[], [], [], [], []⟩).1 with
          | some e =>
            try dsimp only
            exact processGitLabProjects_count dbPresent o env.currentUsername env.currentUserID
              env.cutoff projects ⟨[], [], [], [], []⟩
          | none =>
            try dsimp only
            unfold linkGitLabCrossReferencesOnline
            dsimp only
            rw [countSaveFailures_append, processGitLabProjects_count,
              linkGitLabOnlineLoop_count]
